import Mathlib

/-!
Shallow embedding of the ARIA listbox widget in src/js/listbox.js.

Each list option is a DOM element carrying the attributes the widget reads
and writes: an id, the visible text, and the aria-selected and aria-checked
attributes.  A missing attribute is modelled as none; getAttribute returning
a string is modelled as some.  The CSS class "focused" and scrolling are
presentation only and are not modelled; no claim mentions them.

JavaScript expressions that throw a TypeError, namely a property access or a
method call on null, are modelled by returning Except.error JsErr.typeError;
every other operation returns Except.ok.  Callback notifications made through
handleItemChange are recorded in an event log inside the state.
-/

namespace Listbox

/-- A thrown JavaScript error.  The only errors the widget can produce are
TypeErrors from dereferencing null. -/
inductive JsErr where
  | typeError
  deriving Repr, DecidableEq

/-- A list option element: id attribute, innerText, aria-selected and
aria-checked attributes (none when the attribute is absent). -/
structure ListItem where
  id : String
  label : String
  selected : Option String
  checked : Option String
  deriving Repr, DecidableEq

instance : Inhabited ListItem := ⟨⟨"", "", none, none⟩⟩

/-- An affordance control (button element): its aria-disabled and
aria-keyshortcuts attributes. -/
structure Button where
  ariaDisabled : Option String
  keyshortcuts : Option String
  deriving Repr, DecidableEq

/-- The state of one aria.Listbox controller: the ordered option children of
the listbox node, the activeDescendant field, the mode and configuration
flags set at construction or by enableMoveUpDown / setupMove, the type-ahead
buffer keysSoFar, and a log of handleItemChange notifications (most recent
first). -/
structure State where
  items : List ListItem
  activeDescendant : Option String
  multiselectable : Bool
  moveUpDownEnabled : Bool
  upButton : Option Button
  downButton : Option Button
  moveButton : Option Button
  keysSoFar : String
  events : List (String × List ListItem)
  deriving Repr, DecidableEq

/-- JavaScript truthiness of a nullable string: null and the empty string
are falsy. -/
def jsTruthy : Option String → Bool
  | none => false
  | some st => !(st == "")

/-- The first item whose id matches. -/
def findById (l : List ListItem) (i : String) : Option ListItem :=
  match l with
  | [] => none
  | x :: xs => if x.id == i then some x else findById xs i

/-- document.getElementById restricted to the options of this listbox:
the first item whose id matches.  getElementById(null) finds nothing. -/
def getElementById (l : List ListItem) : Option String → Option ListItem
  | none => none
  | some i => findById l i

/-- Index of the first item with the given id, if any
(Array.prototype.indexOf on the options array). -/
def idxOfId (l : List ListItem) (i : String) : Option Nat :=
  match l with
  | [] => none
  | x :: xs => if x.id == i then some 0 else (idxOfId xs i).map (fun n => n + 1)

/-- Mutate the first item with the given id (DOM element mutation through a
reference; ids are unique in every state the widget builds). -/
def updateFirst (l : List ListItem) (i : String) (f : ListItem → ListItem) :
    List ListItem :=
  match l with
  | [] => []
  | x :: xs => if x.id == i then f x :: xs else x :: updateFirst xs i f

/-- Element.remove() on the first item with the given id. -/
def removeFirstById (l : List ListItem) (i : String) : List ListItem :=
  match l with
  | [] => []
  | x :: xs => if x.id == i then xs else x :: removeFirstById xs i

/-- The attribute flip performed by toggleSelectItem:
value === "true" ? "false" : "true". -/
def toggleAttr : Option String → Option String
  | some "true" => some "false"
  | _ => some "true"

/-- Substring test used for aria-keyshortcuts: s.indexOf(pat) !== -1. -/
def containsSub (s pat : String) : Bool :=
  (s.splitOn pat).length ≥ 2

/-- toggleSelectItem on one element: flip aria-selected and aria-checked. -/
def toggleSelectElem (it : ListItem) : ListItem :=
  { it with selected := toggleAttr it.selected, checked := toggleAttr it.checked }

/-- removeAttribute of aria-selected, performed by defocusItem in a
single-select listbox. -/
def unselectElem (it : ListItem) : ListItem :=
  { it with selected := none }

/-- setAttribute of aria-selected to "true", performed by focusItem in a
single-select listbox. -/
def selectElem (it : ListItem) : ListItem :=
  { it with selected := some "true" }

/-- The move button update at the end of toggleSelectItem: enabled when the
listbox contains an item with aria-selected equal to "true". -/
def updateMoveButtonFromSelection (s : State) : State :=
  match s.moveButton with
  | none => s
  | some b =>
    if s.items.any (fun it => it.selected == some "true") then
      { s with moveButton := some { b with ariaDisabled := some "false" } }
    else
      { s with moveButton := some { b with ariaDisabled := some "true" } }

/-- toggleSelectItem applied to an option already inside the listbox.  In a
single-select listbox this is a no-op. -/
def toggleSelectItem (s : State) (targetId : String) : State :=
  if s.multiselectable then
    updateMoveButtonFromSelection
      { s with items := updateFirst s.items targetId toggleSelectElem }
  else s

/-- checkUpDownButtons.  When reorder is enabled and no option is focused,
the source dereferences both buttons without a null check, so a missing
button throws there; in the focused branch each button is null checked. -/
def checkUpDownButtons (s : State) : Except JsErr State :=
  if !s.moveUpDownEnabled then .ok s
  else
    match getElementById s.items s.activeDescendant with
    | none =>
      match s.upButton, s.downButton with
      | some ub, some db =>
          .ok { s with upButton := some { ub with ariaDisabled := some "true" },
                       downButton := some { db with ariaDisabled := some "true" } }
      | _, _ => .error JsErr.typeError
    | some ae =>
      let i := (idxOfId s.items ae.id).getD 0
      let s1 := match s.upButton with
        | none => s
        | some ub => { s with upButton := some { ub with ariaDisabled :=
            (if 0 < i then some "false" else some "true") } }
      match s1.downButton with
      | none => .ok s1
      | some db => .ok { s1 with downButton := some { db with ariaDisabled :=
          (if i + 1 < s1.items.length then some "false" else some "true") } }

/-- The pure part of focusItem: defocus the previous activeDescendant
(removing aria-selected when single select), mark the target selected when
single select, record the new activeDescendant, and enable the move button
when single select.  The target is an option inside the listbox. -/
def focusCore (s : State) (targetId : String) : State :=
  let s1 := if s.multiselectable then s
    else match s.activeDescendant with
      | none => s
      | some a => { s with items := updateFirst s.items a unselectElem }
  let s2 := if s.multiselectable then s1
    else { s1 with items := updateFirst s1.items targetId selectElem }
  let s3 := { s2 with activeDescendant := some targetId }
  if !s.multiselectable then
    match s3.moveButton with
    | none => s3
    | some b => { s3 with moveButton := some { b with ariaDisabled := some "false" } }
  else s3

/-- focusItem: the attribute updates of focusCore followed by
checkUpDownButtons.  handleFocusChange defaults to a no-op and is not
recorded. -/
def focusItem (s : State) (targetId : String) : Except JsErr State :=
  checkUpDownButtons (focusCore s targetId)

/-- The items field after focusItem: unchanged in multi-select mode; in
single-select mode the previously focused option loses aria-selected and
the target gains it. -/
def focusedItems (s : State) (t : String) : List ListItem :=
  if s.multiselectable then s.items
  else
    updateFirst
      (match s.activeDescendant with
       | none => s.items
       | some a => updateFirst s.items a unselectElem) t selectElem

/-- focusFirstItem: focus the first option when one exists. -/
def focusFirstItem (s : State) : Except JsErr State :=
  match s.items.head? with
  | some it => focusItem s it.id
  | none => .ok s

/-- focusLastItem: focus the last option when one exists. -/
def focusLastItem (s : State) : Except JsErr State :=
  match s.items.getLast? with
  | some it => focusItem s it.id
  | none => .ok s

/-- clearActiveDescendant: null the activeDescendant, disable the move
button, and refresh the reorder buttons. -/
def clearActiveDescendant (s : State) : Except JsErr State :=
  let s1 := { s with activeDescendant := none }
  let s2 := match s1.moveButton with
    | none => s1
    | some b => { s1 with moveButton := some { b with ariaDisabled := some "true" } }
  checkUpDownButtons s2

/-- The aria.Listbox constructor applied to an empty listbox node with no
aria-activedescendant attribute. -/
def initState (ms : Bool) : State :=
  { items := [], activeDescendant := none, multiselectable := ms,
    moveUpDownEnabled := false, upButton := none, downButton := none,
    moveButton := none, keysSoFar := "", events := [] }

/-- enableMoveUpDown: record the two reorder controls and turn the feature
on. -/
def enableMoveUpDown (s : State) (ub db : Button) : State :=
  { s with moveUpDownEnabled := true, upButton := some ub, downButton := some db }

/-- setupMove records the move control on this controller; the sibling
controller itself is passed separately to moveItems. -/
def setupMove (s : State) (b : Button) : State :=
  { s with moveButton := some b }

/-- The per-element mutation addItems performs before appending: defocusItem
removes aria-selected when single select; toggleSelectItem flips
aria-selected and aria-checked when multi select. -/
def transformAdded (ms : Bool) (it : ListItem) : ListItem :=
  if ms then toggleSelectElem it
  else { it with selected := none }

/-- The forEach loop of addItems: mutate each element, update the move
button from the current selection (inside toggleSelectItem, before the
element joins the list), then append the element. -/
def appendLoop (s : State) : List ListItem → State
  | [] => s
  | it :: rest =>
    let it' := transformAdded s.multiselectable it
    let s1 := if s.multiselectable then updateMoveButtonFromSelection s else s
    appendLoop { s1 with items := s1.items ++ [it'] } rest

/-- addItems: a falsy or empty argument returns immediately; otherwise the
elements are mutated and appended, the first of them is focused when nothing
was focused, and the handler is notified with kind "added" and the appended
elements.  transformAdded leaves the id unchanged, so items[0].id is the
first argument id. -/
def addItems (s : State) (newItems : List ListItem) : Except JsErr State :=
  if newItems.isEmpty then .ok s
  else
    let s1 := appendLoop s newItems
    let post : Except JsErr State :=
      if jsTruthy s1.activeDescendant then .ok s1
      else
        match newItems with
        | [] => .ok s1
        | it0 :: _ => focusItem s1 it0.id
    match post with
    | .error e => .error e
    | .ok s2 =>
      .ok { s2 with events :=
        ("added", newItems.map (transformAdded s.multiselectable)) :: s2.events }

/-- The element construction of createListItems: list elements labelled by
the given strings with ids item-0, item-1, ..., created with aria-checked
and aria-selected both "true". -/
def mkListItems (labels : List String) (counter : Nat) : List ListItem :=
  match labels with
  | [] => []
  | l :: rest =>
      { id := "item-" ++ toString counter, label := l,
        selected := some "true", checked := some "true" } :: mkListItems rest (counter + 1)

/-- createListItems: build elements from strings and hand them to
addItems. -/
def createListItems (s : State) (labels : List String) : Except JsErr State :=
  if labels.isEmpty then .ok s
  else addItems s (mkListItems labels 0)

/-- The forEach loop of deleteItems: remove each element and clear the
activeDescendant when the removed element was the focused one. -/
def deleteLoop (s : State) : List ListItem → Except JsErr State
  | [] => .ok s
  | it :: rest =>
    let s1 := { s with items := removeFirstById s.items it.id }
    match (if s1.activeDescendant == some it.id
           then clearActiveDescendant s1 else .ok s1) with
    | .error e => .error e
    | .ok s2 => deleteLoop s2 rest

/-- Sequential removal of a batch of elements, as the deleteItems forEach
performs on the items list. -/
def removeSeq (l : List ListItem) : List ListItem → List ListItem
  | [] => l
  | d :: ds => removeSeq (removeFirstById l d.id) ds

/-- deleteItems: in a multi-select listbox the elements with aria-selected
equal to "true" are collected and removed; in a single-select listbox the
element named by a truthy activeDescendant is removed, and when that lookup
yields null the source calls null.remove(), which throws.  When nothing
qualifies the empty array is returned and nothing changes. -/
def deleteItems (s : State) : Except JsErr (State × List ListItem) :=
  if s.multiselectable then
    let dl := s.items.filter (fun it => it.selected == some "true")
    if dl.isEmpty then .ok (s, [])
    else
      match deleteLoop s dl with
      | .error e => .error e
      | .ok s1 => .ok ({ s1 with events := ("removed", dl) :: s1.events }, dl)
  else
    if jsTruthy s.activeDescendant then
      match getElementById s.items s.activeDescendant with
      | none => .error JsErr.typeError
      | some it =>
        match deleteLoop s [it] with
        | .error e => .error e
        | .ok s1 => .ok ({ s1 with events := ("removed", [it]) :: s1.events }, [it])
    else .ok (s, [])

/-- insertBefore(currentItem, previousItem): swap the first item whose id
matches with its immediate predecessor; an item already at the head stays
put. -/
def swapPrevById (l : List ListItem) (i : String) : List ListItem :=
  match l with
  | [] => []
  | [x] => [x]
  | x :: y :: rest =>
      if y.id == i then y :: x :: rest else x :: swapPrevById (y :: rest) i

/-- insertBefore(nextItem, currentItem): swap the first item whose id
matches with its immediate successor; an item already at the end stays
put. -/
def swapNextById (l : List ListItem) (i : String) : List ListItem :=
  match l with
  | [] => []
  | [x] => [x]
  | x :: y :: rest =>
      if x.id == i then y :: x :: rest else x :: swapNextById (y :: rest) i

/-- moveUpItems: with no activeDescendant return at once; a stale
activeDescendant makes the source read previousElementSibling of null, which
throws; otherwise swap the focused item with its predecessor when one
exists, notify with kind "moved_up", and refresh the reorder buttons. -/
def moveUpItems (s : State) : Except JsErr State :=
  if !jsTruthy s.activeDescendant then .ok s
  else
    match getElementById s.items s.activeDescendant with
    | none => .error JsErr.typeError
    | some cur =>
      let hasPrev := match idxOfId s.items cur.id with
        | some i => decide (0 < i)
        | none => false
      let s1 := if hasPrev then
          { s with items := swapPrevById s.items cur.id,
                   events := ("moved_up", [cur]) :: s.events }
        else s
      checkUpDownButtons s1

/-- moveDownItems: mirror image of moveUpItems using the successor and kind
"moved_down". -/
def moveDownItems (s : State) : Except JsErr State :=
  if !jsTruthy s.activeDescendant then .ok s
  else
    match getElementById s.items s.activeDescendant with
    | none => .error JsErr.typeError
    | some cur =>
      let hasNext := match idxOfId s.items cur.id with
        | some i => decide (i + 1 < s.items.length)
        | none => false
      let s1 := if hasNext then
          { s with items := swapNextById s.items cur.id,
                   events := ("moved_down", [cur]) :: s.events }
        else s
      checkUpDownButtons s1

/-- moveItems: without a sibling list return at once; otherwise delete the
qualifying items here and add them to the sibling through its addItems. -/
def moveItems (s : State) (sib : Option State) : Except JsErr (State × Option State) :=
  match sib with
  | none => .ok (s, none)
  | some sibL =>
    match deleteItems s with
    | .error e => .error e
    | .ok (s1, moved) =>
      match addItems sibL moved with
      | .error e => .error e
      | .ok sib1 => .ok (s1, some sib1)

/-- Auxiliary loop for the searchIndex computation: idx is the loop counter
and acc the last stored match. -/
def lastIdxAux (l : List ListItem) (a : Option String) (idx acc : Nat) : Nat :=
  match l with
  | [] => acc
  | x :: xs => lastIdxAux xs a (idx + 1) (if some x.id == a then idx else acc)

/-- The searchIndex computation of findItemToFocus: the last loop index
whose id attribute equals the activeDescendant, scanning the whole list, and
0 when none matches.  The loop runs only while keysSoFar is empty. -/
def lastIdxOfId (l : List ListItem) (a : Option String) : Nat :=
  lastIdxAux l a 0 0

/-- Character-list test that the first list starts with the second. -/
def charStartsWith : List Char → List Char → Bool
  | _, [] => true
  | [], _ :: _ => false
  | c :: cs, k :: ks => (c == k) && charStartsWith cs ks

/-- The match test of findMatchInRange:
label && label.toUpperCase().indexOf(keysSoFar) === 0, written
character-wise (toUpperCase uppercases each character, and indexOf at 0 is
the starts-with test). -/
def labelMatchesBuffer (label keys : String) : Bool :=
  !(label == "") && charStartsWith (label.data.map Char.toUpper) keys.data

/-- findMatchInRange: the first item with index in [startIndex, endIndex)
whose innerText is nonempty and whose uppercased innerText starts with the
keysSoFar buffer. -/
def findMatchInRange (l : List ListItem) (keys : String)
    (startIndex endIndex : Nat) : Option ListItem :=
  ((List.range' startIndex (endIndex - startIndex)).find? (fun n =>
      match l[n]? with
      | some it => labelMatchesBuffer it.label keys
      | none => false)).bind (fun n => l[n]?)

/-- findItemToFocus: when the buffer is empty the search anchor is the
position of the focused item, otherwise it stays 0; the typed character is
appended to the buffer; the match is looked up after the anchor first and
then in the range before the anchor.  The 500 ms timer that empties the
buffer is the separate transition clearKeysSoFar. -/
def findItemToFocus (s : State) (c : Char) : State × Option ListItem :=
  let searchIndex := if s.keysSoFar == "" then lastIdxOfId s.items s.activeDescendant else 0
  let keys := s.keysSoFar.push c
  let nextMatch := match findMatchInRange s.items keys (searchIndex + 1) s.items.length with
    | some m => some m
    | none => findMatchInRange s.items keys 0 searchIndex
  ({ s with keysSoFar := keys }, nextMatch)

/-- The deferred callback of clearKeysSoFarAfterDelay firing after 500 ms of
inactivity. -/
def clearKeysSoFar (s : State) : State :=
  { s with keysSoFar := "" }

/-- The nextUnselected scan of the Backspace/Delete/Return branch: walk the
following siblings of the focused element for one whose aria-selected is not
"true"; failing that walk the preceding siblings. -/
def findNextUnselected (l : List ListItem) (cur : ListItem) : Option ListItem :=
  match idxOfId l cur.id with
  | none => none
  | some i =>
    match (l.drop (i + 1)).find? (fun it => !(it.selected == some "true")) with
    | some nu => some nu
    | none => ((l.take i).reverse).find? (fun it => !(it.selected == some "true"))

/-- The keys dispatched by checkKeyPress.  The key identity is all the
switch inspects; a printable key carries the character String.fromCharCode
produces from its key code, which is the uppercase letter for letter keys. -/
inductive Key where
  | pageUp | pageDown | up | down | home | endKey | space
  | backspace | deleteKey | returnKey
  | char (c : Char)
  deriving Repr, DecidableEq

/-- findNextOption: Array.prototype.indexOf locates the current option among
all options; the option after it is returned, or null at the end. -/
def findNextOption (l : List ListItem) (cur : ListItem) : Option ListItem :=
  match idxOfId l cur.id with
  | some i => if i + 1 < l.length then l[i + 1]? else none
  | none => none

/-- findPreviousOption: the option before the current one, or null at the
start. -/
def findPreviousOption (l : List ListItem) (cur : ListItem) : Option ListItem :=
  match idxOfId l cur.id with
  | some i => if 0 < i then l[i - 1]? else none
  | none => none

/-- checkKeyPress: the keydown handler.  nextItem is the element named by
the activeDescendant, or the first option.  With a configured move button
whose aria-keyshortcuts attribute is absent, the Return/Backspace/Delete
branch calls indexOf on null and throws.  evt.preventDefault and
updateScroll touch no modelled state. -/
def checkKeyPress (s : State) (sib : Option State) (key : Key) (ctrl : Bool) :
    Except JsErr (State × Option State) :=
  let nextItem0 := match getElementById s.items s.activeDescendant with
    | some e => some e
    | none => s.items.head?
  match nextItem0 with
  | none => .ok (s, sib)
  | some nextItem =>
    match key with
    | .pageUp =>
        if s.moveUpDownEnabled then (moveUpItems s).map (fun x => (x, sib))
        else .ok (s, sib)
    | .pageDown =>
        if s.moveUpDownEnabled then (moveDownItems s).map (fun x => (x, sib))
        else .ok (s, sib)
    | .up =>
        if !jsTruthy s.activeDescendant then (focusItem s nextItem.id).map (fun x => (x, sib))
        else if s.moveUpDownEnabled && ctrl then (moveUpItems s).map (fun x => (x, sib))
        else
          match findPreviousOption s.items nextItem with
          | some t => (focusItem s t.id).map (fun x => (x, sib))
          | none => .ok (s, sib)
    | .down =>
        if !jsTruthy s.activeDescendant then (focusItem s nextItem.id).map (fun x => (x, sib))
        else if s.moveUpDownEnabled && ctrl then (moveDownItems s).map (fun x => (x, sib))
        else
          match findNextOption s.items nextItem with
          | some t => (focusItem s t.id).map (fun x => (x, sib))
          | none => .ok (s, sib)
    | .home => (focusFirstItem s).map (fun x => (x, sib))
    | .endKey => (focusLastItem s).map (fun x => (x, sib))
    | .space => .ok (toggleSelectItem s nextItem.id, sib)
    | .backspace | .deleteKey | .returnKey =>
      match s.moveButton with
      | none => .ok (s, sib)
      | some b =>
        match b.keyshortcuts with
        | none => .error JsErr.typeError
        | some ks =>
          if key == .returnKey && !containsSub ks "Enter" then .ok (s, sib)
          else if (key == .backspace || key == .deleteKey) && !containsSub ks "Delete" then
            .ok (s, sib)
          else
            let nextUnselected := findNextUnselected s.items nextItem
            match moveItems s sib with
            | .error e => .error e
            | .ok (s1, sib1) =>
              if !jsTruthy s1.activeDescendant then
                match nextUnselected with
                | some nu => (focusItem s1 nu.id).map (fun x => (x, sib1))
                | none => .ok (s1, sib1)
              else .ok (s1, sib1)
    | .char c =>
      let r := findItemToFocus s c
      match r.2 with
      | some it => (focusItem r.1 it.id).map (fun x => (x, sib))
      | none => .ok (r.1, sib)

/-- checkClickItem on a target with role option: focus it, then
toggle-select it. -/
def checkClickItem (s : State) (targetId : String) : Except JsErr State :=
  match focusItem s targetId with
  | .error e => .error e
  | .ok s1 => .ok (toggleSelectItem s1 targetId)

/-!  Well-formedness predicates.  enableMoveUpDown installs both reorder
controls whenever it turns the feature on (passing null would already throw
inside enableMoveUpDown itself), and the widget always keeps the
activeDescendant pointing at a present option; the predicates below record
those two facts about a state. -/

/-- Reorder controls are present whenever reorder is enabled. -/
def ButtonsWF (s : State) : Prop :=
  s.moveUpDownEnabled = true → s.upButton.isSome = true ∧ s.downButton.isSome = true

/-- A truthy activeDescendant names an option present in this listbox. -/
def FocusWF (s : State) : Prop :=
  jsTruthy s.activeDescendant = true →
    (getElementById s.items s.activeDescendant).isSome = true

/-- Ids of items about to be inserted are nonempty, mutually distinct and
distinct from the ids already present (the widget mints item-0, item-1, ...
on one empty list and never duplicates an id). -/
def FreshIds (l ni : List ListItem) : Prop :=
  (((l ++ ni).map (fun it => it.id)).Nodup) ∧ ∀ it ∈ ni, it.id ≠ ""

/-- The single-select state invariant: single-select mode, well-formed ids,
a focused id that is present, and an item is selected exactly when it is the
focused one. -/
def SingleSelectInv (s : State) : Prop :=
  s.multiselectable = false ∧
  ((s.items.map (fun it => it.id)).Nodup) ∧
  (∀ it ∈ s.items, it.id ≠ "") ∧
  (∀ a, s.activeDescendant = some a → ∃ it ∈ s.items, it.id = a) ∧
  (∀ it ∈ s.items, (it.selected = some "true" ↔ s.activeDescendant = some it.id))

/-- States of a single-select controller reachable from construction on an
empty listbox through the public operations.  Focus targets are options of
the list (callers always pass elements found inside the listbox), and
inserted items carry fresh ids, as produced by createListItems. -/
inductive ReachableSS : State → Prop where
  | init : ReachableSS (initState false)
  | enable (s : State) (ub db : Button) :
      ReachableSS s → ReachableSS (enableMoveUpDown s ub db)
  | setup (s : State) (b : Button) :
      ReachableSS s → ReachableSS (setupMove s b)
  | focus (s : State) (t : String) (s' : State) :
      ReachableSS s → (∃ it ∈ s.items, it.id = t) →
      focusItem s t = .ok s' → ReachableSS s'
  | add (s : State) (ni : List ListItem) (s' : State) :
      ReachableSS s → FreshIds s.items ni →
      addItems s ni = .ok s' → ReachableSS s'
  | create (s : State) (ls : List String) (s' : State) :
      ReachableSS s → FreshIds s.items (mkListItems ls 0) →
      createListItems s ls = .ok s' → ReachableSS s'
  | toggle (s : State) (t : String) :
      ReachableSS s → ReachableSS (toggleSelectItem s t)
  | del (s s' : State) (r : List ListItem) :
      ReachableSS s → deleteItems s = .ok (s', r) → ReachableSS s'
  | moveUp (s s' : State) :
      ReachableSS s → moveUpItems s = .ok s' → ReachableSS s'
  | moveDown (s s' : State) :
      ReachableSS s → moveDownItems s = .ok s' → ReachableSS s'
  | move (s : State) (sib : Option State) (s' : State) (sib' : Option State) :
      ReachableSS s → moveItems s sib = .ok (s', sib') → ReachableSS s'
  | keysTimer (s : State) :
      ReachableSS s → ReachableSS (clearKeysSoFar s)

/-- Well-formedness used by the navigation claims: distinct nonempty ids,
reorder controls present when enabled, and a focused id that is present. -/
def NavWF (s : State) : Prop :=
  ((s.items.map (fun it => it.id)).Nodup) ∧ ButtonsWF s ∧
  ("" ∉ s.items.map (fun it => it.id)) ∧
  (∀ a, s.activeDescendant = some a → a ∈ s.items.map (fun it => it.id))

/-- Iterated Up/Down key handling: apply checkKeyPress for each direction in
the list (true is Down, false is Up), with no modifier and no sibling. -/
def navFold (s : State) : List Bool → Except JsErr State
  | [] => .ok s
  | d :: ds =>
    match checkKeyPress s none (if d then Key.down else Key.up) false with
    | .error e => .error e
    | .ok r => navFold r.1 ds

/-- The up/down affordance invariant claimed by the spec: when reorder is
configured, the up control is enabled (aria-disabled "false") exactly when
the focused option has a predecessor, the down control exactly when it has a
successor, and both are disabled when nothing is focused. -/
def buttonsConsistent (s : State) : Bool :=
  if s.moveUpDownEnabled then
    match s.upButton, s.downButton with
    | some ub, some db =>
      match getElementById s.items s.activeDescendant with
      | some ae =>
        let i := (idxOfId s.items ae.id).getD 0
        (ub.ariaDisabled == (if 0 < i then some "false" else some "true")) &&
        (db.ariaDisabled == (if i + 1 < s.items.length then some "false" else some "true"))
      | none =>
        (ub.ariaDisabled == some "true") && (db.ariaDisabled == some "true")
    | _, _ => false
  else true

/-- The type-ahead lookup exactly as the claim words it: on each keystroke,
search for a label-prefix match for the extended buffer starting at the
position after the currently focused item, wrapping around to the start of
the list when no match follows the focus point. -/
def claimedTypeAheadMatch (s : State) (c : Char) : Option ListItem :=
  let keys := s.keysSoFar.push c
  let f := lastIdxOfId s.items s.activeDescendant
  match findMatchInRange s.items keys (f + 1) s.items.length with
  | some m => some m
  | none => findMatchInRange s.items keys 0 f

/-- The search anchor findItemToFocus actually uses: the focused position at
the start of a burst, and 0 on every later keystroke of the burst. -/
def actualSearchBase (s : State) : Nat :=
  if s.keysSoFar == "" then lastIdxOfId s.items s.activeDescendant else 0

/-- Declarative type-ahead search: the first index, in the listed search
order, whose item matches the buffer. -/
def declTypeAhead (l : List ListItem) (keys : String) (order : List Nat) :
    Option ListItem :=
  (order.find? (fun n =>
      match l[n]? with
      | some it => labelMatchesBuffer it.label keys
      | none => false)).bind (fun n => l[n]?)

/-- The index order findItemToFocus scans: positions after the anchor, then
the positions before the anchor. -/
def searchOrder (len base : Nat) : List Nat :=
  List.range' (base + 1) (len - (base + 1)) ++ List.range' 0 base

/-!  Concrete states used by counterexamples and witnesses. -/

/-- Option elements of the type-ahead counterexample list. -/
def tciA : ListItem := ⟨"i0", "BCA", none, none⟩

/-- Second option of the type-ahead counterexample list. -/
def tciB : ListItem := ⟨"i1", "BD", none, none⟩

/-- Mid-burst type-ahead state: labels BCA and BD, focus on BD, buffer B
(the first keystroke of the burst focused BD). -/
def tcState : State :=
  { items := [tciA, tciB], activeDescendant := some "i1", multiselectable := false,
    moveUpDownEnabled := false, upButton := none, downButton := none,
    moveButton := none, keysSoFar := "B", events := [] }

/-- A selected non-focused option placed before the focused one. -/
def nbrA : ListItem := ⟨"a", "A", some "true", some "true"⟩

/-- The focused, unselected option. -/
def nbrB : ListItem := ⟨"b", "B", none, none⟩

/-- Multi-select state with reorder configured and consistent controls:
focus on the second option, its selected predecessor about to be deleted. -/
def staleState : State :=
  { items := [nbrA, nbrB], activeDescendant := some "b", multiselectable := true,
    moveUpDownEnabled := true, upButton := some ⟨some "false", none⟩,
    downButton := some ⟨some "true", none⟩, moveButton := none,
    keysSoFar := "", events := [] }

/-- The state deleteItems produces from staleState: the selected neighbor is
gone, focus is kept, and the reorder controls were not refreshed. -/
def stalePost : State :=
  { items := [nbrB], activeDescendant := some "b", multiselectable := true,
    moveUpDownEnabled := true, upButton := some ⟨some "false", none⟩,
    downButton := some ⟨some "true", none⟩, moveButton := none,
    keysSoFar := "", events := [("removed", [nbrA])] }

/-- State with a move control configured through setupMove but carrying no
aria-keyshortcuts attribute, focus on the only option, and no sibling. -/
def noShortcutState : State :=
  { items := [⟨"item-0", "One", none, none⟩], activeDescendant := some "item-0",
    multiselectable := false, moveUpDownEnabled := false, upButton := none,
    downButton := none, moveButton := some ⟨some "false", none⟩,
    keysSoFar := "", events := [] }

/-- First option of the reorder round-trip witness list. -/
def rtP : ListItem := ⟨"p", "P", none, none⟩

/-- Second, focused option of the reorder round-trip witness list. -/
def rtC : ListItem := ⟨"q", "Q", some "true", none⟩

/-- Single-select witness state with the second option focused. -/
def rtState : State :=
  { items := [rtP, rtC], activeDescendant := some "q", multiselectable := false,
    moveUpDownEnabled := false, upButton := none, downButton := none,
    moveButton := none, keysSoFar := "", events := [] }

/-- A selected option of the deletion witness list. -/
def dItemA : ListItem := ⟨"d0", "Sel", some "true", some "true"⟩

/-- An unselected, focused option of the deletion witness list. -/
def dItemB : ListItem := ⟨"d1", "Unsel", none, none⟩

/-- Multi-select witness state: one selected option, focus on the other. -/
def dState : State :=
  { items := [dItemA, dItemB], activeDescendant := some "d1",
    multiselectable := true, moveUpDownEnabled := false, upButton := none,
    downButton := none, moveButton := none, keysSoFar := "", events := [] }

/-- Multi-select move-source witness state with two selected options. -/
def mvSrc : State :=
  { items := [⟨"m0", "A", some "true", some "true"⟩, ⟨"m1", "B", none, none⟩,
      ⟨"m2", "C", some "true", some "true"⟩],
    activeDescendant := none, multiselectable := true, moveUpDownEnabled := false,
    upButton := none, downButton := none,
    moveButton := some ⟨some "false", some "Delete"⟩, keysSoFar := "", events := [] }

/-- Single-select sibling witness state receiving moved options. -/
def mvSib : State :=
  { items := [⟨"m9", "Z", none, none⟩], activeDescendant := some "m9",
    multiselectable := false, moveUpDownEnabled := false, upButton := none,
    downButton := none, moveButton := none, keysSoFar := "", events := [] }

/-- Multi-select witness state used for the flag-inversion claim. -/
def c5State : State :=
  { items := [], activeDescendant := none, multiselectable := true,
    moveUpDownEnabled := false, upButton := none, downButton := none,
    moveButton := none, keysSoFar := "", events := [] }

/-- An incoming element already carrying selected "true". -/
def c5Item : ListItem := ⟨"c5", "Inbound", some "true", some "true"⟩

/-- Single-select witness state with one option and a focus for the
addItems claim. -/
def c6State : State :=
  { items := [⟨"e0", "Old", some "true", none⟩], activeDescendant := some "e0",
    multiselectable := false, moveUpDownEnabled := false, upButton := none,
    downButton := none, moveButton := none, keysSoFar := "", events := [] }

/-- The element appended in the addItems witness. -/
def c6Item : ListItem := ⟨"e1", "New", none, none⟩

/-- The state createListItems builds from the labels One and Two on a fresh
single-select listbox: both elements arrive with aria-selected stripped,
then the first is focused and thereby re-selected. -/
def wState : State :=
  { items := [⟨"item-0", "One", some "true", some "true"⟩,
      ⟨"item-1", "Two", none, some "true"⟩],
    activeDescendant := some "item-0", multiselectable := false,
    moveUpDownEnabled := false, upButton := none, downButton := none,
    moveButton := none, keysSoFar := "",
    events := [("added", [⟨"item-0", "One", none, some "true"⟩,
      ⟨"item-1", "Two", none, some "true"⟩])] }

/-!  Generic lemmas about the list helpers. -/

theorem updateFirst_map_id (l : List ListItem) (i : String) (f : ListItem → ListItem)
    (hf : ∀ x, (f x).id = x.id) :
    (updateFirst l i f).map (fun it => it.id) = l.map (fun it => it.id) := by
  induction l with
  | nil => rfl
  | cons x xs ih =>
    by_cases hx : x.id == i
    · simp [updateFirst, hx, hf]
    · simp [updateFirst, hx, ih]

theorem mem_updateFirst {l : List ListItem} {i : String} {f : ListItem → ListItem}
    {it : ListItem} (h : it ∈ updateFirst l i f) :
    it ∈ l ∨ ∃ x ∈ l, x.id = i ∧ it = f x := by
  induction l with
  | nil => simp [updateFirst] at h
  | cons x xs ih =>
    by_cases hx : x.id == i
    · simp only [updateFirst, hx, if_pos] at h
      rcases List.mem_cons.mp h with h | h
      · exact Or.inr ⟨x, List.mem_cons_self x xs, by simpa using hx, h⟩
      · exact Or.inl (List.mem_cons_of_mem x h)
    · simp only [updateFirst, hx] at h
      rcases List.mem_cons.mp h with h | h
      · exact Or.inl (by simp [h])
      · rcases ih h with h | ⟨y, hy, hyi, hity⟩
        · exact Or.inl (List.mem_cons_of_mem x h)
        · exact Or.inr ⟨y, List.mem_cons_of_mem x hy, hyi, hity⟩

theorem removeFirstById_sublist (l : List ListItem) (i : String) :
    (removeFirstById l i).Sublist l := by
  induction l with
  | nil => simp [removeFirstById]
  | cons x xs ih =>
    by_cases hx : x.id == i
    · simp only [removeFirstById, hx, if_pos]
      exact List.sublist_cons_self x xs
    · simp only [removeFirstById, hx]
      exact List.Sublist.cons₂ x ih

theorem swapPrevById_perm (l : List ListItem) (i : String) :
    (swapPrevById l i).Perm l := by
  induction l with
  | nil => simp [swapPrevById]
  | cons x xs ih =>
    cases xs with
    | nil => simp [swapPrevById]
    | cons y rest =>
      by_cases hy : y.id == i
      · simp only [swapPrevById, hy, if_pos]
        exact List.Perm.swap x y rest
      · simp only [swapPrevById, hy]
        exact List.Perm.cons x ih

theorem swapNextById_perm (l : List ListItem) (i : String) :
    (swapNextById l i).Perm l := by
  induction l with
  | nil => simp [swapNextById]
  | cons x xs ih =>
    cases xs with
    | nil => simp [swapNextById]
    | cons y rest =>
      by_cases hx : x.id == i
      · simp only [swapNextById, hx, if_pos]
        exact List.Perm.swap x y rest
      · simp only [swapNextById, hx]
        exact List.Perm.cons x ih

/-!  Inversion and success lemmas for checkUpDownButtons. -/

theorem checkUpDownButtons_ok_shape {s s' : State}
    (h : checkUpDownButtons s = .ok s') :
    ∃ ub db, s' = { s with upButton := ub, downButton := db } ∧
      ub.isSome = s.upButton.isSome ∧ db.isSome = s.downButton.isSome := by
  obtain ⟨items, ad, ms, en, up, down, mv, keys, ev⟩ := s
  by_cases he : en = true
  · subst he
    cases hae : getElementById items ad with
    | none =>
      cases hub : up with
      | none =>
        simp [checkUpDownButtons, hae, hub] at h
      | some ub =>
        cases hdb : down with
        | none => simp [checkUpDownButtons, hae, hub, hdb] at h
        | some db =>
          subst hub hdb
          simp [checkUpDownButtons, hae] at h
          exact ⟨_, _, h.symm, by simp, by simp⟩
    | some ae =>
      cases hub : up with
      | none =>
        cases hdb : down with
        | none =>
          subst hub hdb
          simp [checkUpDownButtons, hae] at h
          exact ⟨none, none, h.symm, rfl, rfl⟩
        | some db =>
          subst hub hdb
          simp [checkUpDownButtons, hae] at h
          exact ⟨none, _, h.symm, rfl, by simp⟩
      | some ub =>
        cases hdb : down with
        | none =>
          subst hub hdb
          simp [checkUpDownButtons, hae] at h
          exact ⟨_, none, h.symm, by simp, rfl⟩
        | some db =>
          subst hub hdb
          simp [checkUpDownButtons, hae] at h
          exact ⟨_, _, h.symm, by simp, by simp⟩
  · simp only [Bool.not_eq_true] at he
    subst he
    simp [checkUpDownButtons] at h
    exact ⟨up, down, h.symm, rfl, rfl⟩

theorem checkUpDownButtons_isOk {s : State} (hb : ButtonsWF s) :
    ∃ s', checkUpDownButtons s = .ok s' := by
  cases h : checkUpDownButtons s with
  | ok s' => exact ⟨s', rfl⟩
  | error e =>
    exfalso
    obtain ⟨items, ad, ms, en, up, down, mv, keys, ev⟩ := s
    by_cases he : en = true
    · subst he
      obtain ⟨h1, h2⟩ := hb rfl
      cases up with
      | none => simp at h1
      | some ub =>
        cases down with
        | none => simp at h2
        | some db =>
          cases hae : getElementById items ad with
          | none => simp [checkUpDownButtons, hae] at h
          | some ae => simp [checkUpDownButtons, hae] at h
    · simp only [Bool.not_eq_true] at he
      subst he
      simp [checkUpDownButtons] at h

theorem focusCore_eq (s : State) (t : String) :
    ∃ mb, focusCore s t =
      { s with items := focusedItems s t, activeDescendant := some t,
               moveButton := mb } ∧ mb.isSome = s.moveButton.isSome := by
  obtain ⟨items, ad, ms, en, up, down, mv, keys, ev⟩ := s
  cases ms with
  | true => exact ⟨mv, by simp [focusCore, focusedItems], rfl⟩
  | false =>
    cases mv with
    | none => exact ⟨none, by cases ad <;> simp [focusCore, focusedItems], rfl⟩
    | some b =>
      exact ⟨some { b with ariaDisabled := some "false" },
        by cases ad <;> simp [focusCore, focusedItems], rfl⟩

theorem focusItem_ok_inv {s : State} {t : String} {s' : State}
    (h : focusItem s t = .ok s') :
    ∃ ub db mb,
      s' = { s with items := focusedItems s t, activeDescendant := some t,
                    upButton := ub, downButton := db, moveButton := mb } ∧
      ub.isSome = s.upButton.isSome ∧ db.isSome = s.downButton.isSome ∧
      mb.isSome = s.moveButton.isSome := by
  unfold focusItem at h
  obtain ⟨mb, hc, hmb⟩ := focusCore_eq s t
  rw [hc] at h
  obtain ⟨ub, db, hs, hub, hdb⟩ := checkUpDownButtons_ok_shape h
  exact ⟨ub, db, mb, by rw [hs], by simpa using hub, by simpa using hdb, hmb⟩

theorem focusItem_isOk {s : State} (t : String) (hb : ButtonsWF s) :
    ∃ s', focusItem s t = .ok s' := by
  unfold focusItem
  obtain ⟨mb, hc, hmb⟩ := focusCore_eq s t
  rw [hc]
  exact checkUpDownButtons_isOk (fun he => hb he)

theorem clearActiveDescendant_ok_inv {s s' : State}
    (h : clearActiveDescendant s = .ok s') :
    ∃ ub db mb,
      s' = { s with activeDescendant := none, upButton := ub, downButton := db,
                    moveButton := mb } ∧
      ub.isSome = s.upButton.isSome ∧ db.isSome = s.downButton.isSome ∧
      mb.isSome = s.moveButton.isSome := by
  unfold clearActiveDescendant at h
  obtain ⟨items, ad, ms, en, up, down, mv, keys, ev⟩ := s
  cases mv with
  | none =>
    simp only at h
    obtain ⟨ub, db, hs, hub, hdb⟩ := checkUpDownButtons_ok_shape h
    exact ⟨ub, db, none, by rw [hs], by simpa using hub, by simpa using hdb, rfl⟩
  | some b =>
    simp only at h
    obtain ⟨ub, db, hs, hub, hdb⟩ := checkUpDownButtons_ok_shape h
    exact ⟨ub, db, some { b with ariaDisabled := some "true" }, by rw [hs],
      by simpa using hub, by simpa using hdb, rfl⟩

theorem clearActiveDescendant_isOk {s : State} (hb : ButtonsWF s) :
    ∃ s', clearActiveDescendant s = .ok s' := by
  unfold clearActiveDescendant
  obtain ⟨items, ad, ms, en, up, down, mv, keys, ev⟩ := s
  cases mv with
  | none => exact checkUpDownButtons_isOk (fun he => hb he)
  | some b => exact checkUpDownButtons_isOk (fun he => hb he)

theorem findById_eq_some {l : List ListItem} {i : String} {x : ListItem}
    (h : findById l i = some x) : x ∈ l ∧ x.id = i := by
  induction l with
  | nil => simp [findById] at h
  | cons y ys ih =>
    by_cases hy : y.id == i
    · simp only [findById, hy, if_pos] at h
      have hyx : y = x := by simpa using h
      subst hyx
      exact ⟨List.mem_cons_self y ys, by simpa using hy⟩
    · simp only [findById, hy] at h
      obtain ⟨hmem, hid⟩ := ih h
      exact ⟨List.mem_cons_of_mem y hmem, hid⟩

theorem findById_isSome_of_mem {l : List ListItem} {i : String}
    (h : ∃ x ∈ l, x.id = i) : (findById l i).isSome = true := by
  induction l with
  | nil => simp at h
  | cons y ys ih =>
    by_cases hy : y.id == i
    · simp [findById, hy]
    · simp only [findById, hy, if_neg]
      apply ih
      obtain ⟨x, hx, hxi⟩ := h
      rcases List.mem_cons.mp hx with rfl | hx
      · exact absurd hxi (by simpa using hy)
      · exact ⟨x, hx, hxi⟩

/-!  The deleteItems forEach loop. -/

theorem deleteLoop_ok_inv {dl : List ListItem} :
    ∀ {s s' : State}, deleteLoop s dl = .ok s' →
    ∃ ub db mb,
      s' = { s with
              items := removeSeq s.items dl,
              activeDescendant :=
                (if dl.any (fun d => s.activeDescendant == some d.id) then none
                 else s.activeDescendant),
              upButton := ub, downButton := db, moveButton := mb } ∧
      ub.isSome = s.upButton.isSome ∧ db.isSome = s.downButton.isSome ∧
      mb.isSome = s.moveButton.isSome := by
  induction dl with
  | nil =>
    intro s s' h
    simp only [deleteLoop] at h
    cases h
    exact ⟨s.upButton, s.downButton, s.moveButton, by simp [removeSeq], rfl, rfl, rfl⟩
  | cons d ds ih =>
    intro s s' h
    simp only [deleteLoop] at h
    by_cases hcond : s.activeDescendant == some d.id
    · rw [if_pos (by simpa using hcond)] at h
      cases hclear : clearActiveDescendant
          { s with items := removeFirstById s.items d.id } with
      | error e => rw [hclear] at h; cases h
      | ok s2 =>
        rw [hclear] at h
        obtain ⟨ub2, db2, mb2, hs2, hub2, hdb2, hmb2⟩ :=
          clearActiveDescendant_ok_inv hclear
        obtain ⟨ub, db, mb, hs', hub, hdb, hmb⟩ := ih h
        subst hs2
        refine ⟨ub, db, mb, ?_, by rw [hub, hub2], by rw [hdb, hdb2],
          by rw [hmb, hmb2]⟩
        rw [hs']
        simp [removeSeq, hcond]
    · rw [if_neg (by simpa using hcond)] at h
      obtain ⟨ub, db, mb, hs', hub, hdb, hmb⟩ := ih h
      refine ⟨ub, db, mb, ?_, by simpa using hub, by simpa using hdb,
        by simpa using hmb⟩
      rw [hs']
      simp only [removeSeq]
      have : (s.activeDescendant == some d.id) = false := by
        simpa using hcond
      simp [List.any_cons, this]

theorem deleteLoop_isOk {dl : List ListItem} :
    ∀ {s : State}, ButtonsWF s → ∃ s', deleteLoop s dl = .ok s' := by
  induction dl with
  | nil => intro s _; exact ⟨s, rfl⟩
  | cons d ds ih =>
    intro s hb
    simp only [deleteLoop]
    by_cases hcond : s.activeDescendant == some d.id
    · rw [if_pos (by simpa using hcond)]
      have hb1 : ButtonsWF { s with items := removeFirstById s.items d.id } :=
        fun he => hb he
      obtain ⟨s2, hclear⟩ := clearActiveDescendant_isOk hb1
      rw [hclear]
      obtain ⟨ub2, db2, mb2, hs2, hub2, hdb2, hmb2⟩ :=
        clearActiveDescendant_ok_inv hclear
      have hb2 : ButtonsWF s2 := by
        intro he
        subst hs2
        have := hb (by simpa using he)
        constructor
        · rw [hub2]; exact this.1
        · rw [hdb2]; exact this.2
      exact ih hb2
    · rw [if_neg (by simpa using hcond)]
      exact ih (fun he => hb he)

/-!  Lemmas about sequential removal. -/

theorem removeSeq_cons_not_in (x : ListItem) :
    ∀ (dl l : List ListItem), (∀ d ∈ dl, d.id ≠ x.id) →
      removeSeq (x :: l) dl = x :: removeSeq l dl := by
  intro dl
  induction dl with
  | nil => intro l _; rfl
  | cons d ds ih =>
    intro l hd
    have hne : (x.id == d.id) = false := by
      have := hd d (List.mem_cons_self d ds)
      simp
      intro hc
      exact this hc.symm
    have h1 : removeFirstById (x :: l) d.id = x :: removeFirstById l d.id := by
      simp [removeFirstById, hne]
    simp only [removeSeq, h1]
    exact ih _ (fun d' hd' => hd d' (List.mem_cons_of_mem d hd'))

theorem removeSeq_filter (p : ListItem → Bool) :
    ∀ (l : List ListItem), ((l.map (fun it => it.id)).Nodup) →
      removeSeq l (l.filter p) = l.filter (fun x => !(p x)) := by
  intro l
  induction l with
  | nil => intro _; rfl
  | cons x xs ih =>
    intro hnd
    simp only [List.map_cons, List.nodup_cons] at hnd
    obtain ⟨hx, hnd⟩ := hnd
    by_cases hp : p x
    · have h1 : (x :: xs).filter p = x :: xs.filter p := by
        simp [List.filter_cons, hp]
      have h2 : (x :: xs).filter (fun y => !(p y)) = xs.filter (fun y => !(p y)) := by
        simp [List.filter_cons, hp]
      rw [h1, h2]
      simp only [removeSeq]
      rw [show removeFirstById (x :: xs) x.id = xs by simp [removeFirstById]]
      exact ih hnd
    · have hpf : p x = false := by simpa using hp
      have h1 : (x :: xs).filter p = xs.filter p := by
        simp [List.filter_cons, hpf]
      have h2 : (x :: xs).filter (fun y => !(p y)) = x :: xs.filter (fun y => !(p y)) := by
        simp [List.filter_cons, hpf]
      rw [h1, h2, removeSeq_cons_not_in x (xs.filter p) xs ?hne]
      · rw [ih hnd]
      case hne =>
        intro d hd hc
        exact hx (hc ▸ List.mem_map_of_mem _ (List.mem_of_mem_filter hd))

theorem mem_removeFirstById_id_ne {l : List ListItem} {i : String}
    (hnd : (l.map (fun it => it.id)).Nodup) {x : ListItem}
    (hx : x ∈ removeFirstById l i) (hin : ∃ y ∈ l, y.id = i) : x.id ≠ i := by
  induction l with
  | nil => simp [removeFirstById] at hx
  | cons y ys ih =>
    simp only [List.map_cons, List.nodup_cons] at hnd
    obtain ⟨hy, hnd⟩ := hnd
    by_cases hyi : y.id == i
    · simp only [removeFirstById, hyi, if_pos] at hx
      have hyi' : y.id = i := by simpa using hyi
      intro hc
      apply hy
      rw [hyi', ← hc]
      exact List.mem_map_of_mem _ hx
    · simp only [removeFirstById, hyi] at hx
      rcases List.mem_cons.mp hx with rfl | hx
      · simpa using hyi
      · apply ih hnd hx
        obtain ⟨z, hz, hzi⟩ := hin
        rcases List.mem_cons.mp hz with rfl | hz
        · exact absurd hzi (by simpa using hyi)
        · exact ⟨z, hz, hzi⟩

/-!  Full characterisation of deleteItems. -/

theorem deleteItems_full (s : State) (hb : ButtonsWF s) (hf : FocusWF s) :
    ∃ s' del, deleteItems s = .ok (s', del) ∧
      (s.multiselectable = true →
        del = s.items.filter (fun it => it.selected == some "true") ∧
        s'.items = removeSeq s.items del) ∧
      (s.multiselectable = false →
        (jsTruthy s.activeDescendant = true →
          ∃ foc, getElementById s.items s.activeDescendant = some foc ∧
            del = [foc] ∧ s'.items = removeFirstById s.items foc.id ∧
            s'.activeDescendant = none) ∧
        (jsTruthy s.activeDescendant = false → del = [] ∧ s' = s)) ∧
      s'.activeDescendant =
        (if del.any (fun d => s.activeDescendant == some d.id) then none
         else s.activeDescendant) ∧
      (del = [] → s' = s) ∧
      s'.events = (if del.isEmpty then s.events else ("removed", del) :: s.events) ∧
      s'.multiselectable = s.multiselectable ∧
      s'.moveUpDownEnabled = s.moveUpDownEnabled ∧
      s'.upButton.isSome = s.upButton.isSome ∧
      s'.downButton.isSome = s.downButton.isSome ∧
      s'.moveButton.isSome = s.moveButton.isSome ∧
      s'.keysSoFar = s.keysSoFar := by
  by_cases hms : s.multiselectable = true
  · by_cases hdl :
      (s.items.filter (fun it => it.selected == some "true")).isEmpty = true
    · have hdlnil : s.items.filter (fun it => it.selected == some "true") = [] :=
        List.isEmpty_iff.mp hdl
      refine ⟨s, [], by simp [deleteItems, hms, hdl], ?_, ?_, ?_, ?_, ?_, rfl,
        rfl, rfl, rfl, rfl, rfl⟩
      · exact fun _ => ⟨hdlnil.symm, by simp [removeSeq]⟩
      · exact fun hc => absurd hms (by simp [hc])
      · simp
      · exact fun _ => rfl
      · simp
    · have hdlf :
          (s.items.filter (fun it => it.selected == some "true")).isEmpty = false := by
        simpa using hdl
      obtain ⟨s1, hloop⟩ :=
        @deleteLoop_isOk (s.items.filter (fun it => it.selected == some "true")) s hb
      obtain ⟨ub, db, mb, hs1, hub, hdb, hmb⟩ := deleteLoop_ok_inv hloop
      refine ⟨{ s1 with events :=
          ("removed", s.items.filter (fun it => it.selected == some "true")) :: s1.events },
        s.items.filter (fun it => it.selected == some "true"),
        by simp [deleteItems, hms, hdlf, hloop], ?_, ?_, ?_, ?_, ?_, ?_, ?_,
        ?_, ?_, ?_, ?_⟩
      · exact fun _ => ⟨rfl, by rw [hs1]⟩
      · exact fun hc => absurd hms (by simp [hc])
      · rw [hs1]
      · intro hc
        rw [hc] at hdlf
        simp at hdlf
      · rw [hs1]
        simp [hdlf]
      · rw [hs1]
      · rw [hs1]
      · rw [hs1]
        simpa using hub
      · rw [hs1]
        simpa using hdb
      · rw [hs1]
        simpa using hmb
      · rw [hs1]
  · have hms' : s.multiselectable = false := by simpa using hms
    by_cases hjt : jsTruthy s.activeDescendant = true
    · have hsome := hf hjt
      cases hfoc : getElementById s.items s.activeDescendant with
      | none => rw [hfoc] at hsome; simp at hsome
      | some foc =>
        obtain ⟨s1, hloop⟩ := @deleteLoop_isOk [foc] s hb
        obtain ⟨ub, db, mb, hs1, hub, hdb, hmb⟩ := deleteLoop_ok_inv hloop
        have hfid : (s.activeDescendant == some foc.id) = true := by
          cases had : s.activeDescendant with
          | none => rw [had] at hfoc; simp [getElementById] at hfoc
          | some a =>
            rw [had] at hfoc
            have := (findById_eq_some hfoc).2
            simp [this]
        refine ⟨{ s1 with events := ("removed", [foc]) :: s1.events }, [foc],
          by simp [deleteItems, hms', hjt, hfoc, hloop],
          ?_, ?_, ?_, ?_, ?_, ?_, ?_, ?_, ?_, ?_, ?_⟩
        · exact fun hc => absurd hc (by simp [hms'])
        · refine fun _ => ⟨fun _ => ⟨foc, rfl, rfl, ?_, ?_⟩, ?_⟩
          · rw [hs1]
            simp [removeSeq]
          · rw [hs1]
            simp [hfid]
          · intro hc
            rw [hjt] at hc
            cases hc
        · rw [hs1]
        · intro hc
          simp at hc
        · rw [hs1]
          simp
        · rw [hs1]
        · rw [hs1]
        · rw [hs1]
          simpa using hub
        · rw [hs1]
          simpa using hdb
        · rw [hs1]
          simpa using hmb
        · rw [hs1]
    · have hjt' : jsTruthy s.activeDescendant = false := by simpa using hjt
      refine ⟨s, [], by simp [deleteItems, hms', hjt'], ?_, ?_, ?_, ?_, ?_, rfl,
        rfl, rfl, rfl, rfl, rfl⟩
      · exact fun hc => absurd hc (by simp [hms'])
      · refine fun _ => ⟨?_, fun _ => ⟨rfl, rfl⟩⟩
        intro hc
        rw [hjt'] at hc
        cases hc
      · simp
      · exact fun _ => rfl
      · simp

/-!  The addItems append loop. -/

theorem transformAdded_id (ms : Bool) (it : ListItem) :
    (transformAdded ms it).id = it.id := by
  cases ms <;> rfl

theorem updateMoveButtonFromSelection_shape (s : State) :
    ∃ mb, updateMoveButtonFromSelection s = { s with moveButton := mb } ∧
      mb.isSome = s.moveButton.isSome := by
  obtain ⟨items, ad, ms, en, up, down, mv, keys, ev⟩ := s
  cases mv with
  | none => exact ⟨none, by simp [updateMoveButtonFromSelection], rfl⟩
  | some b =>
    by_cases hany : items.any (fun it => it.selected == some "true")
    · exact ⟨some { b with ariaDisabled := some "false" },
        by simp [updateMoveButtonFromSelection, hany], rfl⟩
    · refine ⟨some { b with ariaDisabled := some "true" }, ?_, rfl⟩
      simp only [updateMoveButtonFromSelection]
      rw [if_neg hany]

theorem appendLoop_eq (ni : List ListItem) :
    ∀ (s : State),
      ∃ mb, appendLoop s ni =
        { s with items := s.items ++ ni.map (transformAdded s.multiselectable),
                 moveButton := mb } ∧ mb.isSome = s.moveButton.isSome := by
  induction ni with
  | nil =>
    intro s
    exact ⟨s.moveButton, by simp [appendLoop], rfl⟩
  | cons it rest ih =>
    intro s
    simp only [appendLoop]
    by_cases hms : s.multiselectable = true
    · rw [if_pos hms]
      obtain ⟨mb1, hmb1, hmb1s⟩ := updateMoveButtonFromSelection_shape s
      rw [hmb1]
      obtain ⟨mb, hmb, hmbs⟩ :=
        ih { s with items := s.items ++ [transformAdded s.multiselectable it], moveButton := mb1 }
      rw [hmb]
      exact ⟨mb, by simp, by simp at hmbs; rw [hmbs, hmb1s]⟩
    · have hms' : s.multiselectable = false := by simpa using hms
      rw [if_neg (by simp [hms'])]
      obtain ⟨mb, hmb, hmbs⟩ :=
        ih { s with items := s.items ++ [transformAdded s.multiselectable it] }
      rw [hmb]
      exact ⟨mb, by simp, by simpa using hmbs⟩

theorem focusedItems_map_id (s : State) (t : String) :
    (focusedItems s t).map (fun it => it.id) = s.items.map (fun it => it.id) := by
  by_cases hms : s.multiselectable = true
  · unfold focusedItems
    rw [if_pos hms]
  · cases had : s.activeDescendant with
    | none =>
      unfold focusedItems
      rw [if_neg hms, had]
      exact updateFirst_map_id _ _ _ (fun x => rfl)
    | some a =>
      unfold focusedItems
      rw [if_neg hms, had]
      show (updateFirst (updateFirst s.items a unselectElem) t selectElem).map
        (fun it => it.id) = s.items.map (fun it => it.id)
      rw [updateFirst_map_id (updateFirst s.items a unselectElem) t selectElem
        (fun x => rfl)]
      exact updateFirst_map_id s.items a unselectElem (fun x => rfl)

theorem focusedItems_multi (s : State) (t : String)
    (hms : s.multiselectable = true) : focusedItems s t = s.items := by
  unfold focusedItems
  rw [if_pos hms]

theorem transformAdded_true : transformAdded true = toggleSelectElem := by
  funext x
  rfl

/-!  Full characterisation of addItems on a nonempty argument. -/

theorem addItems_full (s : State) (ni : List ListItem) (hb : ButtonsWF s)
    (hne : ni ≠ []) :
    ∃ s', addItems s ni = .ok s' ∧
      s'.items.map (fun it => it.id) =
        s.items.map (fun it => it.id) ++ ni.map (fun it => it.id) ∧
      (jsTruthy s.activeDescendant = true →
        s'.activeDescendant = s.activeDescendant ∧
        s'.items = s.items ++ ni.map (transformAdded s.multiselectable)) ∧
      (jsTruthy s.activeDescendant = false →
        ∃ h0 t, ni = h0 :: t ∧ s'.activeDescendant = some h0.id ∧
          s'.items = focusedItems
            { s with items := s.items ++ ni.map (transformAdded s.multiselectable) }
            h0.id) ∧
      (s.multiselectable = true →
        s'.items = s.items ++ ni.map toggleSelectElem) ∧
      s'.events = ("added", ni.map (transformAdded s.multiselectable)) :: s.events ∧
      s'.multiselectable = s.multiselectable ∧
      s'.moveUpDownEnabled = s.moveUpDownEnabled ∧
      s'.upButton.isSome = s.upButton.isSome ∧
      s'.downButton.isSome = s.downButton.isSome ∧
      s'.moveButton.isSome = s.moveButton.isSome ∧
      s'.keysSoFar = s.keysSoFar := by
  have hnie : ni.isEmpty = false := by
    cases ni with
    | nil => exact absurd rfl hne
    | cons a b => rfl
  obtain ⟨mb1, hs1, hmb1⟩ := appendLoop_eq ni s
  by_cases hjt : jsTruthy s.activeDescendant = true
  · refine ⟨{ appendLoop s ni with events := ("added", ni.map (transformAdded s.multiselectable)) :: (appendLoop s ni).events },
      by simp [addItems, hnie, hjt, hs1], ?_⟩
    rw [hs1]
    refine ⟨by simp [transformAdded_id], fun _ => ⟨rfl, rfl⟩,
      fun hc => absurd hjt (by simp [hc]), ?_, rfl, rfl, rfl, rfl, rfl,
      by simpa using hmb1, rfl⟩
    intro hms
    simp only [hms]
    have : transformAdded true = toggleSelectElem := by
      funext x
      rfl
    rw [this]
  · have hjt' : jsTruthy s.activeDescendant = false := by simpa using hjt
    cases ni with
    | nil => exact absurd rfl hne
    | cons h0 t =>
      have hb1 : ButtonsWF (appendLoop s (h0 :: t)) := by
        intro he
        rw [hs1] at he ⊢
        exact hb (by simpa using he)
      obtain ⟨s2, hfoc⟩ := focusItem_isOk h0.id hb1
      obtain ⟨ub, db, mb, hs2, hub, hdb, hmb⟩ := focusItem_ok_inv hfoc
      have hjt1 : jsTruthy (appendLoop s (h0 :: t)).activeDescendant = false := by
        rw [hs1]
        exact hjt'
      refine ⟨{ s2 with events := ("added", (h0 :: t).map (transformAdded s.multiselectable)) :: s2.events },
        by simp [addItems, hnie, hjt1, hfoc], ?_⟩
      have hfi : focusedItems (appendLoop s (h0 :: t)) h0.id = focusedItems
          { s with items :=
              s.items ++ (h0 :: t).map (transformAdded s.multiselectable) } h0.id := by
        rw [hs1]
        unfold focusedItems
        rfl
      refine ⟨?_, fun hc => absurd hc (by simp [hjt']),
        fun _ => ⟨h0, t, rfl, ?_, ?_⟩, ?_, ?_, ?_, ?_, ?_, ?_, ?_, ?_⟩
      · rw [hs2]
        simp only []
        rw [hfi, focusedItems_map_id]
        simp [hs1, transformAdded_id]
      · rw [hs2]
      · rw [hs2]
        simp only []
        exact hfi
      · intro hms
        rw [hs2]
        simp only []
        rw [hfi, focusedItems_multi
          { s with items := s.items ++ (h0 :: t).map (transformAdded s.multiselectable) }
          h0.id hms]
        show s.items ++ (h0 :: t).map (transformAdded s.multiselectable) =
          s.items ++ (h0 :: t).map toggleSelectElem
        rw [hms, transformAdded_true]
      · rw [hs2, hs1]
      · rw [hs2, hs1]
      · rw [hs2, hs1]
      · rw [hs2]
        simp only []
        rw [hub, hs1]
      · rw [hs2]
        simp only []
        rw [hdb, hs1]
      · rw [hs2]
        simp only []
        rw [hmb, hs1]
        simpa using hmb1
      · rw [hs2, hs1]

/-!  Lookup and swap lemmas used by the reorder round trip. -/

theorem findById_append_cons {l₁ l₂ : List ListItem} {c : ListItem} {a : String}
    (h1 : ∀ x ∈ l₁, x.id ≠ a) (hc : c.id = a) :
    findById (l₁ ++ c :: l₂) a = some c := by
  induction l₁ with
  | nil => simp [findById, hc]
  | cons x xs ih =>
    have hx : (x.id == a) = false := by
      simpa using h1 x (List.mem_cons_self x xs)
    simp only [List.cons_append, findById, hx]
    exact ih (fun y hy => h1 y (List.mem_cons_of_mem x hy))

theorem idxOfId_append_cons {l₁ l₂ : List ListItem} {c : ListItem} {a : String}
    (h1 : ∀ x ∈ l₁, x.id ≠ a) (hc : c.id = a) :
    idxOfId (l₁ ++ c :: l₂) a = some l₁.length := by
  induction l₁ with
  | nil => simp [idxOfId, hc]
  | cons x xs ih =>
    have hx : (x.id == a) = false := by
      simpa using h1 x (List.mem_cons_self x xs)
    simp only [List.cons_append, idxOfId, hx, Bool.false_eq_true, if_false,
      List.append_eq]
    rw [ih (fun y hy => h1 y (List.mem_cons_of_mem x hy))]
    simp

theorem swapPrevById_append {l₁ l₂ : List ListItem} {p c : ListItem} {a : String}
    (h1 : ∀ x ∈ l₁, x.id ≠ a) (hp : p.id ≠ a) (hc : c.id = a) :
    swapPrevById (l₁ ++ p :: c :: l₂) a = l₁ ++ c :: p :: l₂ := by
  induction l₁ with
  | nil =>
    simp only [List.nil_append, swapPrevById]
    rw [if_pos (by simpa using hc)]
  | cons x xs ih =>
    have ihx := ih (fun y hy => h1 y (List.mem_cons_of_mem x hy))
    cases xs with
    | nil =>
      have hpne : (p.id == a) = false := by simpa using hp
      simp only [List.nil_append, List.cons_append] at ihx ⊢
      simp only [swapPrevById, hpne, Bool.false_eq_true, if_false]
      rw [if_pos (by simpa using hc)]
    | cons y ys =>
      have hyne : (y.id == a) = false := by
        simpa using h1 y (List.mem_cons_of_mem x (List.mem_cons_self y ys))
      simp only [List.cons_append] at ihx ⊢
      simp only [swapPrevById, hyne, Bool.false_eq_true, if_false]
      rw [ihx]

theorem swapNextById_append {l₁ l₂ : List ListItem} {p c : ListItem} {a : String}
    (h1 : ∀ x ∈ l₁, x.id ≠ a) (hc : c.id = a) :
    swapNextById (l₁ ++ c :: p :: l₂) a = l₁ ++ p :: c :: l₂ := by
  induction l₁ with
  | nil =>
    simp only [List.nil_append, swapNextById]
    rw [if_pos (by simpa using hc)]
  | cons x xs ih =>
    have ihx := ih (fun y hy => h1 y (List.mem_cons_of_mem x hy))
    have hxne : (x.id == a) = false := by
      simpa using h1 x (List.mem_cons_self x xs)
    cases xs with
    | nil =>
      simp only [List.nil_append, List.cons_append] at ihx ⊢
      simp only [swapNextById, hxne, Bool.false_eq_true, if_false]
      rw [if_pos (by simpa using hc)]
    | cons y ys =>
      simp only [List.cons_append] at ihx ⊢
      simp only [swapNextById, hxne, Bool.false_eq_true, if_false]
      rw [ihx]

theorem nodup_append_cons_ne {l₁ l₂ : List ListItem} {c : ListItem}
    (hnd : (((l₁ ++ c :: l₂).map (fun it => it.id)).Nodup)) :
    (∀ x ∈ l₁, x.id ≠ c.id) ∧ (∀ x ∈ l₂, x.id ≠ c.id) := by
  rw [List.map_append, List.nodup_append] at hnd
  obtain ⟨h1, h2, hdisj⟩ := hnd
  constructor
  · intro x hx hcid
    exact hdisj (List.mem_map_of_mem _ hx) (by simp [List.map_cons, hcid])
  · intro x hx hcid
    rw [List.map_cons, List.nodup_cons] at h2
    exact h2.1 (by rw [← hcid]; exact List.mem_map_of_mem _ hx)

/-!  Run lemmas reducing moveUpItems and moveDownItems to their
checkUpDownButtons tail call. -/

theorem moveUpItems_run_swap {s : State} {a : String} {cur : ListItem} {i : Nat}
    (ha : s.activeDescendant = some a) (hane : a ≠ "")
    (hget : findById s.items a = some cur)
    (hidx : idxOfId s.items cur.id = some i) (hpos : 0 < i) :
    moveUpItems s = checkUpDownButtons
      { s with items := swapPrevById s.items cur.id,
               events := ("moved_up", [cur]) :: s.events } := by
  have ha' : (a == "") = false := by simpa using hane
  simp [moveUpItems, ha, jsTruthy, ha', getElementById, hget, hidx, hpos]

theorem moveUpItems_run_noop {s : State} {a : String} {cur : ListItem}
    (ha : s.activeDescendant = some a) (hane : a ≠ "")
    (hget : findById s.items a = some cur)
    (hidx : idxOfId s.items cur.id = some 0) :
    moveUpItems s = checkUpDownButtons s := by
  have ha' : (a == "") = false := by simpa using hane
  simp [moveUpItems, ha, jsTruthy, ha', getElementById, hget, hidx]

theorem moveDownItems_run_swap {s : State} {a : String} {cur : ListItem} {i : Nat}
    (ha : s.activeDescendant = some a) (hane : a ≠ "")
    (hget : findById s.items a = some cur)
    (hidx : idxOfId s.items cur.id = some i) (hlen : i + 1 < s.items.length) :
    moveDownItems s = checkUpDownButtons
      { s with items := swapNextById s.items cur.id,
               events := ("moved_down", [cur]) :: s.events } := by
  have ha' : (a == "") = false := by simpa using hane
  simp [moveDownItems, ha, jsTruthy, ha', getElementById, hget, hidx, hlen]

theorem moveDownItems_run_noop {s : State} {a : String} {cur : ListItem} {i : Nat}
    (ha : s.activeDescendant = some a) (hane : a ≠ "")
    (hget : findById s.items a = some cur)
    (hidx : idxOfId s.items cur.id = some i) (hlen : ¬(i + 1 < s.items.length)) :
    moveDownItems s = checkUpDownButtons s := by
  have ha' : (a == "") = false := by simpa using hane
  simp [moveDownItems, ha, jsTruthy, ha', getElementById, hget, hidx, hlen]

/-- C8: for every list state whose focused item is not at the first
position, moveUpItems followed immediately by moveDownItems restores the
original item order (and leaves the focus where it was); when the focused
item is first, moveUpItems changes neither the order, the focus, nor the
notification log. -/
theorem moveUp_then_moveDown_restores_order (s : State) (a : String)
    (hnd : (s.items.map (fun it => it.id)).Nodup)
    (hb : ButtonsWF s)
    (ha : s.activeDescendant = some a) (hane : a ≠ "") :
    (∀ l₁ p c l₂, s.items = l₁ ++ p :: c :: l₂ → c.id = a →
      ∃ s1 s2, moveUpItems s = .ok s1 ∧ moveDownItems s1 = .ok s2 ∧
        s2.items = s.items ∧ s2.activeDescendant = some a) ∧
    (∀ c l₂, s.items = c :: l₂ → c.id = a →
      ∃ s1, moveUpItems s = .ok s1 ∧ s1.items = s.items ∧
        s1.activeDescendant = some a ∧ s1.events = s.events) := by
  constructor
  · intro l₁ p c l₂ hit hcid
    have hnd' : (((l₁ ++ [p]) ++ c :: l₂).map (fun it => it.id)).Nodup := by
      rw [List.append_assoc]
      simpa [hit] using hnd
    obtain ⟨hL, hR⟩ := nodup_append_cons_ne hnd'
    have h1 : ∀ x ∈ l₁, x.id ≠ a :=
      fun x hx => hcid ▸ hL x (List.mem_append_left _ hx)
    have hp : p.id ≠ a :=
      hcid ▸ hL p (List.mem_append_right _ (List.mem_cons_self p []))
    have h1p : ∀ x ∈ l₁ ++ [p], x.id ≠ a := fun x hx => hcid ▸ hL x hx
    have hsplit : l₁ ++ p :: c :: l₂ = (l₁ ++ [p]) ++ c :: l₂ := by simp
    have hget : findById s.items a = some c := by
      rw [hit, hsplit]
      exact findById_append_cons h1p hcid
    have hidx : idxOfId s.items c.id = some (l₁.length + 1) := by
      rw [hcid, hit, hsplit]
      have := @idxOfId_append_cons (l₁ ++ [p]) l₂ c a h1p hcid
      simpa using this
    have hswap : swapPrevById s.items c.id = l₁ ++ c :: p :: l₂ := by
      rw [hit, hcid]
      exact swapPrevById_append h1 hp hcid
    have hrun := moveUpItems_run_swap ha hane hget hidx (by omega)
    obtain ⟨s1, hok⟩ := @checkUpDownButtons_isOk
      { s with items := swapPrevById s.items c.id, events := ("moved_up", [c]) :: s.events }
      (fun he => hb he)
    obtain ⟨ub, db, hs1, hub, hdb⟩ := checkUpDownButtons_ok_shape hok
    have hs1items : s1.items = l₁ ++ c :: p :: l₂ := by
      rw [hs1]
      exact hswap
    have hs1act : s1.activeDescendant = some a := by
      rw [hs1]
      exact ha
    have hb1 : ButtonsWF s1 := by
      intro he
      have he' : s.moveUpDownEnabled = true := by rw [hs1] at he; exact he
      refine ⟨?_, ?_⟩
      · rw [hs1]
        show ub.isSome = true
        rw [hub]
        exact (hb he').1
      · rw [hs1]
        show db.isSome = true
        rw [hdb]
        exact (hb he').2
    have hget1 : findById s1.items a = some c := by
      rw [hs1items]
      exact findById_append_cons h1 hcid
    have hidx1 : idxOfId s1.items c.id = some l₁.length := by
      rw [hs1items, hcid]
      exact idxOfId_append_cons h1 hcid
    have hlen1 : l₁.length + 1 < s1.items.length := by
      rw [hs1items]
      simp [List.length_append]
    have hswap2 : swapNextById s1.items c.id = s.items := by
      rw [hs1items, hcid, hit]
      exact swapNextById_append h1 hcid
    have hrun2 := moveDownItems_run_swap hs1act hane hget1 hidx1 hlen1
    obtain ⟨s2, hok2⟩ := @checkUpDownButtons_isOk
      { s1 with items := swapNextById s1.items c.id, events := ("moved_down", [c]) :: s1.events }
      (fun he => hb1 he)
    obtain ⟨ub2, db2, hs2, hub2, hdb2⟩ := checkUpDownButtons_ok_shape hok2
    refine ⟨s1, s2, by rw [hrun]; exact hok, by rw [hrun2]; exact hok2, ?_, ?_⟩
    · rw [hs2]
      exact hswap2
    · rw [hs2]
      exact hs1act
  · intro c l₂ hit hcid
    have hget : findById s.items a = some c := by
      rw [hit]
      simp [findById, hcid]
    have hidx : idxOfId s.items c.id = some 0 := by
      rw [hit]
      simp [idxOfId]
    have hrun := moveUpItems_run_noop ha hane hget hidx
    obtain ⟨s1, hok⟩ := checkUpDownButtons_isOk hb
    obtain ⟨ub, db, hs1, hub, hdb⟩ := checkUpDownButtons_ok_shape hok
    refine ⟨s1, by rw [hrun]; exact hok, ?_, ?_, ?_⟩
    · rw [hs1]
    · rw [hs1]
      exact ha
    · rw [hs1]

/-- Witness for the reorder round trip on a concrete two-item list with the
second item focused (and the first-position no-op on the same theorem). -/
theorem moveUp_then_moveDown_restores_order_witness :
    ∃ s1 s2, moveUpItems rtState = .ok s1 ∧ moveDownItems s1 = .ok s2 ∧
      s2.items = rtState.items ∧ s2.activeDescendant = some "q" :=
  (moveUp_then_moveDown_restores_order rtState "q" (by decide)
    (fun h => nomatch h) rfl (by decide)).1 [] rtP rtC [] rfl rfl

/-!  The claim-level statement of deleteItems. -/

/-- C3: deleteItems in multi-select mode removes exactly the elements with
aria-selected "true" and returns exactly that collection; in single-select
mode it removes only the focused element; the focus is cleared exactly when
the focused element was among the removed ones; when nothing qualifies it
returns the empty collection and changes nothing; a removal notifies the
handler with kind "removed" and the removed elements. -/
theorem deleteItems_spec (s : State)
    (hnd : (s.items.map (fun it => it.id)).Nodup)
    (hb : ButtonsWF s) (hf : FocusWF s) :
    ∃ s' del, deleteItems s = .ok (s', del) ∧
      (s.multiselectable = true →
        del = s.items.filter (fun it => it.selected == some "true") ∧
        s'.items = s.items.filter (fun it => !(it.selected == some "true"))) ∧
      (s.multiselectable = false →
        (jsTruthy s.activeDescendant = true →
          ∃ foc, getElementById s.items s.activeDescendant = some foc ∧
            del = [foc] ∧ s'.items = removeFirstById s.items foc.id) ∧
        (jsTruthy s.activeDescendant = false → del = [] ∧ s' = s)) ∧
      s'.activeDescendant =
        (if del.any (fun d => s.activeDescendant == some d.id) then none
         else s.activeDescendant) ∧
      (del = [] → s' = s) ∧
      (del ≠ [] → s'.events = ("removed", del) :: s.events) := by
  obtain ⟨s', del, hrun, hmulti, hsingle, hact, hemp, hev, _⟩ :=
    deleteItems_full s hb hf
  refine ⟨s', del, hrun, ?_, ?_, hact, hemp, ?_⟩
  · intro hms
    obtain ⟨h1, h2⟩ := hmulti hms
    refine ⟨h1, ?_⟩
    rw [h2, h1]
    exact removeSeq_filter _ s.items hnd
  · intro hms
    obtain ⟨ht, hfalse⟩ := hsingle hms
    refine ⟨?_, hfalse⟩
    intro hjt
    obtain ⟨foc, ha, hd, hi, _⟩ := ht hjt
    exact ⟨foc, ha, hd, hi⟩
  · intro hne
    have hde : del.isEmpty = false := by
      cases del with
      | nil => exact absurd rfl hne
      | cons a b => rfl
    rw [hev, hde]
    simp

/-- Witness for deleteItems on a concrete multi-select state with one
selected option and focus on an unselected one. -/
theorem deleteItems_spec_witness :
    ∃ s' del, deleteItems dState = .ok (s', del) ∧
      (dState.multiselectable = true →
        del = dState.items.filter (fun it => it.selected == some "true") ∧
        s'.items = dState.items.filter (fun it => !(it.selected == some "true"))) ∧
      (dState.multiselectable = false →
        (jsTruthy dState.activeDescendant = true →
          ∃ foc, getElementById dState.items dState.activeDescendant = some foc ∧
            del = [foc] ∧ s'.items = removeFirstById dState.items foc.id) ∧
        (jsTruthy dState.activeDescendant = false → del = [] ∧ s' = dState)) ∧
      s'.activeDescendant =
        (if del.any (fun d => dState.activeDescendant == some d.id) then none
         else dState.activeDescendant) ∧
      (del = [] → s' = dState) ∧
      (del ≠ [] → s'.events = ("removed", del) :: dState.events) :=
  deleteItems_spec dState (by decide) (fun h => nomatch h) (fun _ => rfl)

/-!  The claim-level statement of moveItems. -/

/-- C4: moveItems with a configured sibling removes the qualifying items
from the source exactly as deleteItems does and appends them, in the same
relative order, to the end of the sequence of the sibling; without a
sibling it is a no-op. -/
theorem moveItems_spec (s sib : State)
    (hb : ButtonsWF s) (hf : FocusWF s) (hsb : ButtonsWF sib) :
    moveItems s none = .ok (s, none) ∧
    ∃ s' sib' del, deleteItems s = .ok (s', del) ∧
      moveItems s (some sib) = .ok (s', some sib') ∧
      (s.multiselectable = true →
        del = s.items.filter (fun it => it.selected == some "true")) ∧
      sib'.items.map (fun it => it.id) =
        sib.items.map (fun it => it.id) ++ del.map (fun it => it.id) := by
  refine ⟨rfl, ?_⟩
  obtain ⟨s', del, hrun, hmulti, hrest⟩ := deleteItems_full s hb hf
  cases hdel : del with
  | nil =>
    refine ⟨s', sib, [], by rw [← hdel]; exact hrun,
      by simp [moveItems, hdel ▸ hrun, addItems], ?_, by simp⟩
    intro hms
    exact hdel ▸ (hmulti hms).1
  | cons d ds =>
    obtain ⟨sib', haddrun, hids, _⟩ :=
      addItems_full sib (d :: ds) hsb (by simp)
    refine ⟨s', sib', d :: ds, by rw [← hdel]; exact hrun,
      by simp [moveItems, hdel ▸ hrun, haddrun], ?_, hids⟩
    intro hms
    exact hdel ▸ (hmulti hms).1

/-- Witness for moveItems from a concrete multi-select source with two
selected options into a single-select sibling. -/
theorem moveItems_spec_witness :
    moveItems mvSrc none = .ok (mvSrc, none) ∧
    ∃ s' sib' del, deleteItems mvSrc = .ok (s', del) ∧
      moveItems mvSrc (some mvSib) = .ok (s', some sib') ∧
      (mvSrc.multiselectable = true →
        del = mvSrc.items.filter (fun it => it.selected == some "true")) ∧
      sib'.items.map (fun it => it.id) =
        mvSib.items.map (fun it => it.id) ++ del.map (fun it => it.id) :=
  moveItems_spec mvSrc mvSib (fun h => nomatch h) (fun h => nomatch h)
    (fun h => nomatch h)

/-!  The claim-level statements of addItems. -/

theorem mkListItems_flags :
    ∀ (ls : List String) (n : Nat), ∀ it ∈ mkListItems ls n,
      it.selected = some "true" ∧ it.checked = some "true" := by
  intro ls
  induction ls with
  | nil => intro n it hit; simp [mkListItems] at hit
  | cons l rest ih =>
    intro n it hit
    simp only [mkListItems, List.mem_cons] at hit
    rcases hit with rfl | hit
    · exact ⟨rfl, rfl⟩
    · exact ih (n + 1) it hit

/-- C5: in multi-select mode addItems inverts the aria-selected and
aria-checked attributes of every element it appends (toggleSelectItem runs
on each element before it is appended), so an element arriving with
selected "true" is appended with selected "false"; elements built by
createListItems, which are created with both attributes "true", therefore
arrive with both attributes "false", and elements transferred from a
sibling list arrive with both attributes inverted likewise. -/
theorem addItems_inverts_flags (s : State) (ni : List ListItem)
    (hms : s.multiselectable = true) (hb : ButtonsWF s) (hne : ni ≠ []) :
    (∃ s', addItems s ni = .ok s' ∧
      s'.items = s.items ++ ni.map toggleSelectElem ∧
      ∀ it ∈ ni, (toggleSelectElem it).selected = toggleAttr it.selected ∧
        (toggleSelectElem it).checked = toggleAttr it.checked ∧
        (it.selected = some "true" →
          (toggleSelectElem it).selected = some "false")) ∧
    (∀ ls : List String, ls ≠ [] →
      ∃ s'', createListItems s ls = .ok s'' ∧
        s''.items = s.items ++ (mkListItems ls 0).map toggleSelectElem ∧
        ∀ it' ∈ (mkListItems ls 0).map toggleSelectElem,
          it'.selected = some "false" ∧ it'.checked = some "false") := by
  constructor
  · obtain ⟨s', hrun, _, _, _, hmulti, _⟩ := addItems_full s ni hb hne
    refine ⟨s', hrun, hmulti hms, ?_⟩
    intro it _
    refine ⟨rfl, rfl, ?_⟩
    intro hsel
    simp [toggleSelectElem, toggleAttr, hsel]
  · intro ls hls
    have hmk : mkListItems ls 0 ≠ [] := by
      cases ls with
      | nil => exact absurd rfl hls
      | cons l rest => simp [mkListItems]
    obtain ⟨s'', hrun, _, _, _, hmulti, _⟩ :=
      addItems_full s (mkListItems ls 0) hb hmk
    have hlse : ls.isEmpty = false := by
      cases ls with
      | nil => exact absurd rfl hls
      | cons l rest => rfl
    refine ⟨s'', by simp [createListItems, hlse, hrun], hmulti hms, ?_⟩
    intro it' hit'
    obtain ⟨it, hit, rfl⟩ := List.mem_map.mp hit'
    obtain ⟨h1, h2⟩ := mkListItems_flags ls 0 it hit
    constructor
    · simp [toggleSelectElem, toggleAttr, h1]
    · simp [toggleSelectElem, toggleAttr, h2]

/-- Witness for the flag inversion on a concrete multi-select state and one
incoming selected element, and on createListItems with one label. -/
theorem addItems_inverts_flags_witness :
    (∃ s', addItems c5State [c5Item] = .ok s' ∧
      s'.items = c5State.items ++ [c5Item].map toggleSelectElem ∧
      ∀ it ∈ [c5Item], (toggleSelectElem it).selected = toggleAttr it.selected ∧
        (toggleSelectElem it).checked = toggleAttr it.checked ∧
        (it.selected = some "true" →
          (toggleSelectElem it).selected = some "false")) ∧
    (∀ ls : List String, ls ≠ [] →
      ∃ s'', createListItems c5State ls = .ok s'' ∧
        s''.items = c5State.items ++ (mkListItems ls 0).map toggleSelectElem ∧
        ∀ it' ∈ (mkListItems ls 0).map toggleSelectElem,
          it'.selected = some "false" ∧ it'.checked = some "false") :=
  addItems_inverts_flags c5State [c5Item] rfl (fun h => nomatch h) (by decide)

/-- C6: addItems with a nonempty argument appends the elements at the end
of the sequence, notifies the item-change handler with kind "added" and
exactly the appended elements, focuses the first appended element when
nothing was focused before the call, and leaves an existing focus
unchanged. -/
theorem addItems_appends_and_focuses (s : State) (ni : List ListItem)
    (hb : ButtonsWF s) (hne : ni ≠ []) (hact : s.activeDescendant ≠ some "") :
    ∃ s', addItems s ni = .ok s' ∧
      s'.items.map (fun it => it.id) =
        s.items.map (fun it => it.id) ++ ni.map (fun it => it.id) ∧
      s'.events = ("added", ni.map (transformAdded s.multiselectable)) :: s.events ∧
      (∀ a, s.activeDescendant = some a → s'.activeDescendant = some a) ∧
      (s.activeDescendant = none →
        ∃ h0 t, ni = h0 :: t ∧ s'.activeDescendant = some h0.id) := by
  obtain ⟨s', hrun, hids, htrue, hfalse, _, hev, _⟩ := addItems_full s ni hb hne
  refine ⟨s', hrun, hids, hev, ?_, ?_⟩
  · intro a haa
    by_cases ha0 : a = ""
    · exact absurd (ha0 ▸ haa) hact
    · have hjt : jsTruthy s.activeDescendant = true := by
        rw [haa]
        simp [jsTruthy, ha0]
      rw [(htrue hjt).1, haa]
  · intro hnone
    have hjt : jsTruthy s.activeDescendant = false := by rw [hnone]; rfl
    obtain ⟨h0, t, hni, hact', _⟩ := hfalse hjt
    exact ⟨h0, t, hni, hact'⟩

/-- Witness for addItems on a concrete focused single-select state and a
fresh element. -/
theorem addItems_appends_and_focuses_witness :
    ∃ s', addItems c6State [c6Item] = .ok s' ∧
      s'.items.map (fun it => it.id) =
        c6State.items.map (fun it => it.id) ++ [c6Item].map (fun it => it.id) ∧
      s'.events =
        ("added", [c6Item].map (transformAdded c6State.multiselectable)) ::
          c6State.events ∧
      (∀ a, c6State.activeDescendant = some a → s'.activeDescendant = some a) ∧
      (c6State.activeDescendant = none →
        ∃ h0 t, [c6Item] = h0 :: t ∧ s'.activeDescendant = some h0.id) :=
  addItems_appends_and_focuses c6State [c6Item] (fun h => nomatch h) (by decide)
    (by decide)

/-!  Up/Down navigation. -/

theorem findNextOption_mem {l : List ListItem} {cur tgt : ListItem}
    (h : findNextOption l cur = some tgt) : tgt ∈ l := by
  unfold findNextOption at h
  cases hidx : idxOfId l cur.id with
  | none => rw [hidx] at h; cases h
  | some i =>
    rw [hidx] at h
    have h' : (if i + 1 < l.length then l[i + 1]? else none) = some tgt := h
    by_cases hlt : i + 1 < l.length
    · rw [if_pos hlt] at h'
      obtain ⟨hw, rfl⟩ := List.getElem?_eq_some.mp h'
      exact List.getElem_mem hw
    · rw [if_neg hlt] at h'
      cases h'

theorem findPreviousOption_mem {l : List ListItem} {cur tgt : ListItem}
    (h : findPreviousOption l cur = some tgt) : tgt ∈ l := by
  unfold findPreviousOption at h
  cases hidx : idxOfId l cur.id with
  | none => rw [hidx] at h; cases h
  | some i =>
    rw [hidx] at h
    have h' : (if 0 < i then l[i - 1]? else none) = some tgt := h
    by_cases hlt : 0 < i
    · rw [if_pos hlt] at h'
      obtain ⟨hw, rfl⟩ := List.getElem?_eq_some.mp h'
      exact List.getElem_mem hw
    · rw [if_neg hlt] at h'
      cases h'

theorem NavWF_of_focusItem {s s' : State} {t : String}
    (h : NavWF s) (ht : t ∈ s.items.map (fun it => it.id))
    (hfok : focusItem s t = .ok s') :
    s'.items.map (fun it => it.id) = s.items.map (fun it => it.id) ∧ NavWF s' := by
  obtain ⟨hnd, hb, hnem, hpres⟩ := h
  obtain ⟨ub, db, mb, hs', hub, hdb, hmb⟩ := focusItem_ok_inv hfok
  have hids : s'.items.map (fun it => it.id) = s.items.map (fun it => it.id) := by
    rw [hs']
    exact focusedItems_map_id s t
  refine ⟨hids, hids ▸ hnd, ?_, hids ▸ hnem, ?_⟩
  · intro he
    have he' : s.moveUpDownEnabled = true := by rw [hs'] at he; exact he
    constructor
    · rw [hs']
      show ub.isSome = true
      rw [hub]
      exact (hb he').1
    · rw [hs']
      show db.isSome = true
      rw [hdb]
      exact (hb he').2
  · intro a ha
    have : s'.activeDescendant = some t := by rw [hs']
    rw [this] at ha
    injection ha with ha
    rw [← ha]
    exact hids ▸ ht

theorem navStep_ok {s : State} (h : NavWF s) (d : Bool) :
    ∃ s', checkKeyPress s none (if d then Key.down else Key.up) false =
        .ok (s', none) ∧
      s'.items.map (fun it => it.id) = s.items.map (fun it => it.id) ∧
      NavWF s' := by
  obtain ⟨hnd, hb, hnem, hpres⟩ := h
  cases had : s.activeDescendant with
  | none =>
    cases hhd : s.items.head? with
    | none =>
      refine ⟨s, ?_, rfl, hnd, hb, hnem, hpres⟩
      cases d <;> simp [checkKeyPress, had, getElementById, hhd]
    | some x =>
      have hx : x ∈ s.items := by
        cases hi : s.items with
        | nil => rw [hi] at hhd; cases hhd
        | cons y ys =>
          rw [hi] at hhd
          injection hhd with hhd
          rw [hhd] at hi ⊢
          exact hi ▸ List.mem_cons_self x ys
      obtain ⟨s2, hfok⟩ := focusItem_isOk x.id hb
      obtain ⟨hids, hwf⟩ := NavWF_of_focusItem ⟨hnd, hb, hnem, hpres⟩
        (List.mem_map_of_mem _ hx) hfok
      refine ⟨s2, ?_, hids, hwf⟩
      cases d <;> simp [checkKeyPress, had, getElementById, hhd, jsTruthy, hfok, Except.map]
  | some a =>
    have hain : a ∈ s.items.map (fun it => it.id) := hpres a had
    have hane : a ≠ "" := fun hc => hnem (hc ▸ hain)
    have ha' : (a == "") = false := by simpa using hane
    have hsome : (findById s.items a).isSome = true := by
      apply findById_isSome_of_mem
      obtain ⟨x, hx, hxa⟩ := List.mem_map.mp hain
      exact ⟨x, hx, hxa⟩
    cases hget : findById s.items a with
    | none => rw [hget] at hsome; cases hsome
    | some cur =>
      cases d
      · cases hprev : findPreviousOption s.items cur with
        | none =>
          refine ⟨s, ?_, rfl, hnd, hb, hnem, hpres⟩
          simp [checkKeyPress, had, getElementById, hget, jsTruthy, ha', hprev]
        | some tgt =>
          have htm : tgt ∈ s.items := findPreviousOption_mem hprev
          obtain ⟨s2, hfok⟩ := focusItem_isOk tgt.id hb
          obtain ⟨hids, hwf⟩ := NavWF_of_focusItem ⟨hnd, hb, hnem, hpres⟩
            (List.mem_map_of_mem _ htm) hfok
          refine ⟨s2, ?_, hids, hwf⟩
          simp [checkKeyPress, had, getElementById, hget, jsTruthy, ha', hprev, hfok, Except.map]
      · cases hnext : findNextOption s.items cur with
        | none =>
          refine ⟨s, ?_, rfl, hnd, hb, hnem, hpres⟩
          simp [checkKeyPress, had, getElementById, hget, jsTruthy, ha', hnext]
        | some tgt =>
          have htm : tgt ∈ s.items := findNextOption_mem hnext
          obtain ⟨s2, hfok⟩ := focusItem_isOk tgt.id hb
          obtain ⟨hids, hwf⟩ := NavWF_of_focusItem ⟨hnd, hb, hnem, hpres⟩
            (List.mem_map_of_mem _ htm) hfok
          refine ⟨s2, ?_, hids, hwf⟩
          simp [checkKeyPress, had, getElementById, hget, jsTruthy, ha', hnext, hfok, Except.map]

theorem navFold_ok {dirs : List Bool} :
    ∀ {s : State}, NavWF s →
    ∃ s', navFold s dirs = .ok s' ∧
      s'.items.map (fun it => it.id) = s.items.map (fun it => it.id) ∧
      NavWF s' := by
  induction dirs with
  | nil => intro s h; exact ⟨s, rfl, rfl, h⟩
  | cons d ds ih =>
    intro s h
    obtain ⟨s1, hstep, hids1, hwf1⟩ := navStep_ok h d
    obtain ⟨s2, hfold, hids2, hwf2⟩ := ih hwf1
    refine ⟨s2, ?_, hids2.trans hids1, hwf2⟩
    simp only [navFold, hstep]
    exact hfold

/-- C2: under any sequence of Up/Down keypresses the focus stays on ids of
the original option list, hence inside the first-to-last bounds, and at the
boundaries the keypress is a no-op: Down on the last option and Up on the
first option leave the whole state unchanged (no wraparound). -/
theorem focus_nav_bounded (s : State) (dirs : List Bool) (h : NavWF s) :
    (∃ s', navFold s dirs = .ok s' ∧
      s'.items.map (fun it => it.id) = s.items.map (fun it => it.id) ∧
      (∀ a, s'.activeDescendant = some a → a ∈ s.items.map (fun it => it.id))) ∧
    (∀ a i, s.activeDescendant = some a → idxOfId s.items a = some i →
      (¬(i + 1 < s.items.length) →
        checkKeyPress s none Key.down false = .ok (s, none)) ∧
      (i = 0 → checkKeyPress s none Key.up false = .ok (s, none))) := by
  obtain ⟨hnd, hb, hnem, hpres⟩ := h
  constructor
  · obtain ⟨s', hrun, hids, hwf⟩ := navFold_ok ⟨hnd, hb, hnem, hpres⟩
    exact ⟨s', hrun, hids, fun a ha => hids ▸ hwf.2.2.2 a ha⟩
  · intro a i ha hidx
    have hain : a ∈ s.items.map (fun it => it.id) := hpres a ha
    have hane : a ≠ "" := fun hc => hnem (hc ▸ hain)
    have ha' : (a == "") = false := by simpa using hane
    have hsome : (findById s.items a).isSome = true := by
      apply findById_isSome_of_mem
      obtain ⟨x, hx, hxa⟩ := List.mem_map.mp hain
      exact ⟨x, hx, hxa⟩
    cases hget : findById s.items a with
    | none => rw [hget] at hsome; cases hsome
    | some cur =>
      have hcur : cur.id = a := (findById_eq_some hget).2
      have hidxc : idxOfId s.items cur.id = some i := by rw [hcur]; exact hidx
      constructor
      · intro hlast
        have hnext : findNextOption s.items cur = none := by
          unfold findNextOption
          rw [hidxc]
          simp [hlast]
        simp [checkKeyPress, ha, getElementById, hget, jsTruthy, ha', hnext]
      · intro h0
        have hprev : findPreviousOption s.items cur = none := by
          unfold findPreviousOption
          rw [hidxc, h0]
          simp
        simp [checkKeyPress, ha, getElementById, hget, jsTruthy, ha', hprev]

/-- Witness for the navigation bounds on a concrete two-item list with the
last item focused, stepping Down, Up, Up. -/
theorem focus_nav_bounded_witness :
    (∃ s', navFold rtState [true, false, false] = .ok s' ∧
      s'.items.map (fun it => it.id) = rtState.items.map (fun it => it.id) ∧
      (∀ a, s'.activeDescendant = some a →
        a ∈ rtState.items.map (fun it => it.id))) ∧
    (∀ a i, rtState.activeDescendant = some a →
      idxOfId rtState.items a = some i →
      (¬(i + 1 < rtState.items.length) →
        checkKeyPress rtState none Key.down false = .ok (rtState, none)) ∧
      (i = 0 → checkKeyPress rtState none Key.up false = .ok (rtState, none))) :=
  focus_nav_bounded rtState [true, false, false] (by
    unfold NavWF
    constructor
    · decide
    constructor
    · intro h
      exact absurd h (by decide)
    constructor
    · decide
    · intro a ha
      injection ha with h2
      rw [← h2]
      decide)

/-!  Consistency of the reorder controls. -/

theorem checkUpDownButtons_consistent {s s' : State}
    (h : checkUpDownButtons s = .ok s')
    (hub : s.upButton.isSome = true) (hdb : s.downButton.isSome = true) :
    buttonsConsistent s' = true := by
  obtain ⟨items, ad, ms, en, up, down, mv, keys, ev⟩ := s
  by_cases he : en = true
  · subst he
    cases up with
    | none => simp at hub
    | some ub =>
      cases down with
      | none => simp at hdb
      | some db =>
        cases hae : getElementById items ad with
        | none =>
          simp [checkUpDownButtons, hae] at h
          rw [← h]
          simp [buttonsConsistent, hae]
        | some ae =>
          simp [checkUpDownButtons, hae] at h
          rw [← h]
          simp [buttonsConsistent, hae]
  · simp only [Bool.not_eq_true] at he
    subst he
    simp [checkUpDownButtons] at h
    rw [← h]
    simp [buttonsConsistent]

theorem buttonsConsistent_none_active {s s' : State}
    (h : s.activeDescendant = none) (h' : s'.activeDescendant = none)
    (he : s'.moveUpDownEnabled = s.moveUpDownEnabled)
    (hu : s'.upButton = s.upButton) (hd : s'.downButton = s.downButton)
    (hc : buttonsConsistent s = true) : buttonsConsistent s' = true := by
  unfold buttonsConsistent at hc ⊢
  rw [h, getElementById] at hc
  rw [h', he, hu, hd, getElementById]
  exact hc

theorem deleteLoop_none_active {dl : List ListItem} :
    ∀ {s s' : State}, s.activeDescendant = none → deleteLoop s dl = .ok s' →
    s'.activeDescendant = none ∧ s'.upButton = s.upButton ∧
    s'.downButton = s.downButton ∧ s'.moveUpDownEnabled = s.moveUpDownEnabled := by
  induction dl with
  | nil =>
    intro s s' ha h
    simp only [deleteLoop] at h
    cases h
    exact ⟨ha, rfl, rfl, rfl⟩
  | cons d ds ih =>
    intro s s' ha h
    simp only [deleteLoop] at h
    rw [if_neg (by simp [ha])] at h
    have h' : deleteLoop { s with items := removeFirstById s.items d.id } ds =
        .ok s' := h
    exact @ih { s with items := removeFirstById s.items d.id } s' ha h'

theorem clearActiveDescendant_consistent {s s' : State}
    (h : clearActiveDescendant s = .ok s')
    (hub : s.upButton.isSome = true) (hdb : s.downButton.isSome = true) :
    buttonsConsistent s' = true := by
  unfold clearActiveDescendant at h
  cases hmv : s.moveButton with
  | none =>
    simp only [hmv] at h
    exact checkUpDownButtons_consistent h hub hdb
  | some b =>
    simp only [hmv] at h
    exact checkUpDownButtons_consistent h hub hdb

theorem deleteLoop_focus_removed {dl : List ListItem} :
    ∀ {s s' : State}, s.upButton.isSome = true → s.downButton.isSome = true →
    deleteLoop s dl = .ok s' → (∃ d ∈ dl, s.activeDescendant = some d.id) →
    s'.activeDescendant = none ∧ buttonsConsistent s' = true := by
  induction dl with
  | nil =>
    intro s s' _ _ _ hex
    simp at hex
  | cons d ds ih =>
    intro s s' hub hdb h hex
    simp only [deleteLoop] at h
    by_cases hcond : s.activeDescendant == some d.id
    · rw [if_pos (by simpa using hcond)] at h
      cases hclear : clearActiveDescendant
          { s with items := removeFirstById s.items d.id } with
      | error e => rw [hclear] at h; cases h
      | ok s2 =>
        rw [hclear] at h
        obtain ⟨ub2, db2, mb2, hs2, hub2, hdb2, hmb2⟩ :=
          clearActiveDescendant_ok_inv hclear
        have hcons2 : buttonsConsistent s2 = true :=
          clearActiveDescendant_consistent hclear hub hdb
        have hact2 : s2.activeDescendant = none := by rw [hs2]
        obtain ⟨hact', hu', hd', he'⟩ := deleteLoop_none_active hact2 h
        exact ⟨hact', buttonsConsistent_none_active hact2 hact' he' hu' hd' hcons2⟩
    · rw [if_neg (by simpa using hcond)] at h
      apply ih (by simpa using hub) (by simpa using hdb) h
      obtain ⟨d', hd', had'⟩ := hex
      rcases List.mem_cons.mp hd' with rfl | hd'
      · exact absurd (by simp [had']) hcond
      · exact ⟨d', hd', had'⟩

theorem jsTruthy_eq_true {o : Option String} (h : jsTruthy o = true) :
    ∃ a, o = some a ∧ a ≠ "" := by
  cases o with
  | none => simp [jsTruthy] at h
  | some a =>
    refine ⟨a, rfl, ?_⟩
    simp [jsTruthy] at h
    exact h

theorem idxOfId_of_findById {l : List ListItem} {a : String} {cur : ListItem}
    (h : findById l a = some cur) : ∃ i, idxOfId l cur.id = some i := by
  induction l with
  | nil => simp [findById] at h
  | cons x xs ih =>
    by_cases hx : x.id == a
    · simp only [findById, hx, if_pos] at h
      have hxc : x = cur := by simpa using h
      subst hxc
      exact ⟨0, by simp [idxOfId]⟩
    · simp only [findById, hx] at h
      obtain ⟨i, hi⟩ := ih h
      have hxc : (x.id == cur.id) = false := by
        have hca : cur.id = a := (findById_eq_some h).2
        rw [hca]
        simpa using hx
      exact ⟨i + 1, by simp [idxOfId, hxc, hi]⟩

/-- C10 as stated fails on the code: in a reorder-enabled multi-select list
whose controls are consistent, deleteItems removing the selected predecessor
of the focused option keeps the focus but never calls checkUpDownButtons,
so the up control stays enabled although the focused option is now first. -/
theorem updown_buttons_counterexample :
    buttonsConsistent staleState = true ∧
    deleteItems staleState = .ok (stalePost, [nbrA]) ∧
    stalePost.activeDescendant = some nbrB.id ∧
    idxOfId stalePost.items nbrB.id = some 0 ∧
    stalePost.upButton = some ⟨some "false", none⟩ ∧
    buttonsConsistent stalePost = false :=
  ⟨by decide, rfl, rfl, by decide, rfl, by decide⟩

/-- C10 amended: with both reorder controls present, the
enabled-iff-neighbor invariant of the controls holds after focusItem, after
moveUpItems and moveDownItems invoked with a focus, after
clearActiveDescendant, and after any deleteItems that removed the focused
option; when deleteItems removes only non-focused options the controls are
not refreshed (see the counterexample). -/
theorem updown_buttons_spec (s : State)
    (hub : s.upButton.isSome = true) (hdb : s.downButton.isSome = true) :
    (∀ t s', focusItem s t = .ok s' → buttonsConsistent s' = true) ∧
    (jsTruthy s.activeDescendant = true →
      (∀ s', moveUpItems s = .ok s' → buttonsConsistent s' = true) ∧
      (∀ s', moveDownItems s = .ok s' → buttonsConsistent s' = true)) ∧
    (∀ s', clearActiveDescendant s = .ok s' → buttonsConsistent s' = true) ∧
    (∀ s' del, deleteItems s = .ok (s', del) →
      (∃ d ∈ del, s.activeDescendant = some d.id) →
      s'.activeDescendant = none ∧ buttonsConsistent s' = true) := by
  refine ⟨?_, ?_, ?_, ?_⟩
  · intro t s' h
    unfold focusItem at h
    obtain ⟨mb, hc, hmb⟩ := focusCore_eq s t
    rw [hc] at h
    exact checkUpDownButtons_consistent h hub hdb
  · intro hjt
    obtain ⟨a, ha, hane⟩ := jsTruthy_eq_true hjt
    constructor
    · intro s' h
      cases hget : findById s.items a with
      | none =>
        unfold moveUpItems at h
        rw [hjt] at h
        simp only [Bool.not_true, Bool.false_eq_true, if_false] at h
        rw [ha] at h
        have hge : getElementById s.items (some a) = none := by
          simp [getElementById, hget]
        rw [hge] at h
        cases h
      | some cur =>
        obtain ⟨i, hidx⟩ := idxOfId_of_findById hget
        by_cases hp : 0 < i
        · rw [moveUpItems_run_swap ha hane hget hidx hp] at h
          exact checkUpDownButtons_consistent h hub hdb
        · have hi0 : i = 0 := by omega
          rw [moveUpItems_run_noop ha hane hget (hi0 ▸ hidx)] at h
          exact checkUpDownButtons_consistent h hub hdb
    · intro s' h
      cases hget : findById s.items a with
      | none =>
        unfold moveDownItems at h
        rw [hjt] at h
        simp only [Bool.not_true, Bool.false_eq_true, if_false] at h
        rw [ha] at h
        have hge : getElementById s.items (some a) = none := by
          simp [getElementById, hget]
        rw [hge] at h
        cases h
      | some cur =>
        obtain ⟨i, hidx⟩ := idxOfId_of_findById hget
        by_cases hp : i + 1 < s.items.length
        · rw [moveDownItems_run_swap ha hane hget hidx hp] at h
          exact checkUpDownButtons_consistent h hub hdb
        · rw [moveDownItems_run_noop ha hane hget hidx hp] at h
          exact checkUpDownButtons_consistent h hub hdb
  · intro s' h
    exact clearActiveDescendant_consistent h hub hdb
  · intro s' del h hex
    by_cases hms : s.multiselectable = true
    · by_cases hdl :
        (s.items.filter (fun it => it.selected == some "true")).isEmpty = true
      · simp [deleteItems, hms, hdl] at h
        obtain ⟨h1, h2⟩ := h
        rw [h2] at hex
        simp at hex
      · have hdlf :
            (s.items.filter (fun it => it.selected == some "true")).isEmpty
              = false := by simpa using hdl
        cases hloop :
            deleteLoop s (s.items.filter (fun it => it.selected == some "true")) with
        | error e => simp [deleteItems, hms, hdlf, hloop] at h
        | ok s1 =>
          have hrun : deleteItems s = .ok
              ({ s1 with events := ("removed",
                  s.items.filter (fun it => it.selected == some "true")) :: s1.events },
                s.items.filter (fun it => it.selected == some "true")) := by
            simp [deleteItems, hms, hdlf, hloop]
          rw [hrun] at h
          have hps : ({ s1 with events := ("removed",
              s.items.filter (fun it => it.selected == some "true")) :: s1.events }
                : State) = s' ∧
              s.items.filter (fun it => it.selected == some "true") = del := by
            simpa using h
          obtain ⟨hps1, hps2⟩ := hps
          rw [← hps2] at hex
          obtain ⟨hact', hcons'⟩ := deleteLoop_focus_removed hub hdb hloop hex
          rw [← hps1]
          exact ⟨hact', hcons'⟩
    · have hms' : s.multiselectable = false := by simpa using hms
      by_cases hjt : jsTruthy s.activeDescendant = true
      · cases hfoc : getElementById s.items s.activeDescendant with
        | none => simp [deleteItems, hms', hjt, hfoc] at h
        | some foc =>
          cases hloop : deleteLoop s [foc] with
          | error e => simp [deleteItems, hms', hjt, hfoc, hloop] at h
          | ok s1 =>
            have hrun : deleteItems s =
                .ok ({ s1 with events := ("removed", [foc]) :: s1.events }, [foc]) := by
              simp [deleteItems, hms', hjt, hfoc, hloop]
            rw [hrun] at h
            have hps : ({ s1 with events := ("removed", [foc]) :: s1.events }
                : State) = s' ∧ [foc] = del := by simpa using h
            obtain ⟨hps1, hps2⟩ := hps
            have hfid : s.activeDescendant = some foc.id := by
              cases had : s.activeDescendant with
              | none => rw [had] at hfoc; simp [getElementById] at hfoc
              | some a =>
                rw [had] at hfoc
                rw [(findById_eq_some hfoc).2]
            obtain ⟨hact', hcons'⟩ := deleteLoop_focus_removed hub hdb hloop
              ⟨foc, List.mem_cons_self foc [], hfid⟩
            rw [← hps1]
            exact ⟨hact', hcons'⟩
      · have hjt' : jsTruthy s.activeDescendant = false := by simpa using hjt
        simp [deleteItems, hms', hjt'] at h
        obtain ⟨h1, h2⟩ := h
        rw [h2] at hex
        simp at hex

/-- Witness for the amended up/down affordance statement on the concrete
reorder-enabled multi-select state of the counterexample. -/
theorem updown_buttons_spec_witness :
    (∀ t s', focusItem staleState t = .ok s' → buttonsConsistent s' = true) ∧
    (jsTruthy staleState.activeDescendant = true →
      (∀ s', moveUpItems staleState = .ok s' → buttonsConsistent s' = true) ∧
      (∀ s', moveDownItems staleState = .ok s' → buttonsConsistent s' = true)) ∧
    (∀ s', clearActiveDescendant staleState = .ok s' →
      buttonsConsistent s' = true) ∧
    (∀ s' del, deleteItems staleState = .ok (s', del) →
      (∃ d ∈ del, staleState.activeDescendant = some d.id) →
      s'.activeDescendant = none ∧ buttonsConsistent s' = true) :=
  updown_buttons_spec staleState rfl rfl

/-!  Type-ahead search. -/

/-- C7 as stated fails on the code: with options labelled BCA and BD, focus
on BD and buffer B (mid-burst), pressing C extends the buffer to BC and the
code finds no match (the search anchor is 0, not the focused position, so
the item BCA at index 0 is never examined), while the search the claim
describes, starting after the focused item and wrapping to the items before
it, finds BCA; the keypress leaves the focus unchanged. -/
theorem type_ahead_counterexample :
    (findItemToFocus tcState 'C').1.keysSoFar = "BC" ∧
    (findItemToFocus tcState 'C').2 = none ∧
    claimedTypeAheadMatch tcState 'C' = some tciA ∧
    checkKeyPress tcState none (Key.char 'C') false =
      .ok ((findItemToFocus tcState 'C').1, none) ∧
    (findItemToFocus tcState 'C').1.activeDescendant = tcState.activeDescendant := by
  refine ⟨?_, ?_, ?_, ?_, ?_⟩ <;> rfl

theorem type_ahead_decl (l : List ListItem) (keys : String) (base : Nat) :
    (match findMatchInRange l keys (base + 1) l.length with
     | some m => some m
     | none => findMatchInRange l keys 0 base) =
      declTypeAhead l keys (searchOrder l.length base) := by
  unfold declTypeAhead searchOrder
  rw [List.find?_append]
  cases hfind : (List.range' (base + 1) (l.length - (base + 1))).find?
      (fun n => match l[n]? with
        | some it => labelMatchesBuffer it.label keys
        | none => false) with
  | none =>
    have h1 : findMatchInRange l keys (base + 1) l.length = none := by
      unfold findMatchInRange
      rw [hfind]
      rfl
    rw [h1]
    unfold findMatchInRange
    simp [Option.orElse]
  | some n =>
    have hp := List.find?_some hfind
    cases hln : l[n]? with
    | none => rw [hln] at hp; simp at hp
    | some it =>
      have h1 : findMatchInRange l keys (base + 1) l.length = some it := by
        unfold findMatchInRange
        rw [hfind, Option.some_bind, hln]
      rw [h1]
      simp [Option.orElse, hln]

/-- C7 amended: type-ahead appends the typed character to the buffer and
searches for a case-insensitive label-prefix match for the extended buffer
in the order after-the-anchor first, then before the anchor; the anchor is
the position of the focused item on the keystroke that starts a burst
(empty buffer) but 0 on every later keystroke of the burst, so that within
a burst the search starts at the second item and the wrap range is empty;
when no item matches, the keypress leaves the items and the focus unchanged
and only the buffer grows. -/
theorem type_ahead_spec (s : State) (c : Char) :
    (findItemToFocus s c).1 = { s with keysSoFar := s.keysSoFar.push c } ∧
    (findItemToFocus s c).2 =
      declTypeAhead s.items (s.keysSoFar.push c)
        (searchOrder s.items.length (actualSearchBase s)) ∧
    (s.keysSoFar = "" →
      actualSearchBase s = lastIdxOfId s.items s.activeDescendant) ∧
    (s.keysSoFar ≠ "" → actualSearchBase s = 0) ∧
    (s.items ≠ [] → (findItemToFocus s c).2 = none →
      checkKeyPress s none (Key.char c) false =
        .ok ({ s with keysSoFar := s.keysSoFar.push c }, none)) := by
  refine ⟨rfl, ?_, ?_, ?_, ?_⟩
  · show (match findMatchInRange s.items (s.keysSoFar.push c)
        (actualSearchBase s + 1) s.items.length with
      | some m => some m
      | none => findMatchInRange s.items (s.keysSoFar.push c) 0
          (actualSearchBase s)) = _
    exact type_ahead_decl s.items (s.keysSoFar.push c) (actualSearchBase s)
  · intro h0
    unfold actualSearchBase
    rw [if_pos (by simpa using h0)]
  · intro h0
    unfold actualSearchBase
    rw [if_neg (by simpa using h0)]
  · intro hne hm
    have hfst : (findItemToFocus s c).1 = { s with keysSoFar := s.keysSoFar.push c } :=
      rfl
    cases hge : getElementById s.items s.activeDescendant with
    | some e => simp [checkKeyPress, hge, hm, hfst]
    | none =>
      cases hh : s.items.head? with
      | none =>
        cases hi : s.items with
        | nil => exact absurd hi hne
        | cons x xs => rw [hi] at hh; cases hh
      | some x => simp [checkKeyPress, hge, hh, hm, hfst]

/-- Witness for the amended type-ahead statement at the concrete mid-burst
counterexample state and keystroke. -/
theorem type_ahead_spec_witness :
    (findItemToFocus tcState 'C').1 =
      { tcState with keysSoFar := tcState.keysSoFar.push 'C' } ∧
    (findItemToFocus tcState 'C').2 =
      declTypeAhead tcState.items (tcState.keysSoFar.push 'C')
        (searchOrder tcState.items.length (actualSearchBase tcState)) ∧
    (tcState.keysSoFar = "" →
      actualSearchBase tcState = lastIdxOfId tcState.items tcState.activeDescendant) ∧
    (tcState.keysSoFar ≠ "" → actualSearchBase tcState = 0) ∧
    (tcState.items ≠ [] → (findItemToFocus tcState 'C').2 = none →
      checkKeyPress tcState none (Key.char 'C') false =
        .ok ({ tcState with keysSoFar := tcState.keysSoFar.push 'C' }, none)) :=
  type_ahead_spec tcState 'C'

/-!  Success lemmas for every public operation, used by the error-handling
claim. -/

theorem focusFirstItem_isOk {s : State} (hb : ButtonsWF s) :
    ∃ s', focusFirstItem s = .ok s' := by
  unfold focusFirstItem
  cases s.items.head? with
  | none => exact ⟨s, rfl⟩
  | some it => exact focusItem_isOk it.id hb

theorem focusLastItem_isOk {s : State} (hb : ButtonsWF s) :
    ∃ s', focusLastItem s = .ok s' := by
  unfold focusLastItem
  cases s.items.getLast? with
  | none => exact ⟨s, rfl⟩
  | some it => exact focusItem_isOk it.id hb

theorem moveUpItems_isOk {s : State} (hb : ButtonsWF s) (hf : FocusWF s) :
    ∃ s', moveUpItems s = .ok s' := by
  by_cases hjt : jsTruthy s.activeDescendant = true
  · obtain ⟨a, ha, hane⟩ := jsTruthy_eq_true hjt
    have hsome := hf hjt
    rw [ha] at hsome
    cases hget : findById s.items a with
    | none => rw [show getElementById s.items (some a) = findById s.items a from rfl,
        hget] at hsome; cases hsome
    | some cur =>
      obtain ⟨i, hidx⟩ := idxOfId_of_findById hget
      by_cases hp : 0 < i
      · rw [moveUpItems_run_swap ha hane hget hidx hp]
        exact checkUpDownButtons_isOk (fun he => hb he)
      · have hi0 : i = 0 := by omega
        rw [moveUpItems_run_noop ha hane hget (hi0 ▸ hidx)]
        exact checkUpDownButtons_isOk hb
  · have hjt' : jsTruthy s.activeDescendant = false := by simpa using hjt
    refine ⟨s, ?_⟩
    unfold moveUpItems
    rw [hjt']
    rfl

theorem moveDownItems_isOk {s : State} (hb : ButtonsWF s) (hf : FocusWF s) :
    ∃ s', moveDownItems s = .ok s' := by
  by_cases hjt : jsTruthy s.activeDescendant = true
  · obtain ⟨a, ha, hane⟩ := jsTruthy_eq_true hjt
    have hsome := hf hjt
    rw [ha] at hsome
    cases hget : findById s.items a with
    | none => rw [show getElementById s.items (some a) = findById s.items a from rfl,
        hget] at hsome; cases hsome
    | some cur =>
      obtain ⟨i, hidx⟩ := idxOfId_of_findById hget
      by_cases hp : i + 1 < s.items.length
      · rw [moveDownItems_run_swap ha hane hget hidx hp]
        exact checkUpDownButtons_isOk (fun he => hb he)
      · rw [moveDownItems_run_noop ha hane hget hidx hp]
        exact checkUpDownButtons_isOk hb
  · have hjt' : jsTruthy s.activeDescendant = false := by simpa using hjt
    refine ⟨s, ?_⟩
    unfold moveDownItems
    rw [hjt']
    rfl

theorem addItems_isOk {s : State} (hb : ButtonsWF s) (ni : List ListItem) :
    ∃ s', addItems s ni = .ok s' ∧ ButtonsWF s' := by
  cases hni : ni with
  | nil => exact ⟨s, by simp [addItems], hb⟩
  | cons h0 t =>
    obtain ⟨s', hrun, _, _, _, _, _, _, hen, hub, hdb, _⟩ :=
      addItems_full s (h0 :: t) hb (by simp)
    refine ⟨s', hrun, ?_⟩
    intro he
    rw [hen] at he
    obtain ⟨h1, h2⟩ := hb he
    exact ⟨by rw [hub]; exact h1, by rw [hdb]; exact h2⟩

theorem deleteItems_isOk {s : State} (hb : ButtonsWF s) (hf : FocusWF s) :
    ∃ s' del, deleteItems s = .ok (s', del) ∧ ButtonsWF s' := by
  obtain ⟨s', del, hrun, _, _, _, _, _, _, hen, hub, hdb, _⟩ :=
    deleteItems_full s hb hf
  refine ⟨s', del, hrun, ?_⟩
  intro he
  rw [hen] at he
  obtain ⟨h1, h2⟩ := hb he
  exact ⟨by rw [hub]; exact h1, by rw [hdb]; exact h2⟩

theorem createListItems_isOk {s : State} (hb : ButtonsWF s) (ls : List String) :
    ∃ s', createListItems s ls = .ok s' := by
  by_cases hls : ls.isEmpty = true
  · exact ⟨s, by simp [createListItems, hls]⟩
  · have hls' : ls.isEmpty = false := by simpa using hls
    obtain ⟨s', hrun, _⟩ := addItems_isOk hb (mkListItems ls 0)
    exact ⟨s', by simp [createListItems, hls', hrun]⟩

theorem moveItems_isOk {s : State} {sib : Option State}
    (hb : ButtonsWF s) (hf : FocusWF s)
    (hsb : ∀ sb, sib = some sb → ButtonsWF sb) :
    ∃ s1 sib1, moveItems s sib = .ok (s1, sib1) ∧ ButtonsWF s1 := by
  cases sib with
  | none => exact ⟨s, none, rfl, hb⟩
  | some sb =>
    obtain ⟨s1, del, hdel, hb1⟩ := deleteItems_isOk hb hf
    obtain ⟨sib1, hadd, _⟩ := addItems_isOk (hsb sb rfl) del
    exact ⟨s1, some sib1, by simp [moveItems, hdel, hadd], hb1⟩

theorem checkClickItem_isOk {s : State} (hb : ButtonsWF s) (t : String) :
    ∃ s', checkClickItem s t = .ok s' := by
  obtain ⟨s1, hfok⟩ := focusItem_isOk t hb
  exact ⟨toggleSelectItem s1 t, by simp [checkClickItem, hfok]⟩

theorem checkKeyPress_isOk (s : State) (sib : Option State)
    (hb : ButtonsWF s) (hf : FocusWF s)
    (hks : ∀ b, s.moveButton = some b → b.keyshortcuts.isSome = true)
    (hsb : ∀ sb, sib = some sb → ButtonsWF sb) (key : Key) (ctrl : Bool) :
    ∃ r, checkKeyPress s sib key ctrl = .ok r := by
  cases hni : (match getElementById s.items s.activeDescendant with
      | some e => some e
      | none => s.items.head?) with
  | none =>
    refine ⟨(s, sib), ?_⟩
    simp only [checkKeyPress, hni]
  | some nextItem =>
    cases key with
    | pageUp =>
      by_cases he : s.moveUpDownEnabled = true
      · obtain ⟨s', hup⟩ := moveUpItems_isOk hb hf
        exact ⟨(s', sib), by simp [checkKeyPress, Except.map, hni, he, hup]⟩
      · have he' : s.moveUpDownEnabled = false := by simpa using he
        exact ⟨(s, sib), by simp [checkKeyPress, Except.map, hni, he']⟩
    | pageDown =>
      by_cases he : s.moveUpDownEnabled = true
      · obtain ⟨s', hdn⟩ := moveDownItems_isOk hb hf
        exact ⟨(s', sib), by simp [checkKeyPress, Except.map, hni, he, hdn]⟩
      · have he' : s.moveUpDownEnabled = false := by simpa using he
        exact ⟨(s, sib), by simp [checkKeyPress, Except.map, hni, he']⟩
    | up =>
      by_cases hjt : jsTruthy s.activeDescendant = true
      · by_cases hc : (s.moveUpDownEnabled && ctrl) = true
        · obtain ⟨s', hup⟩ := moveUpItems_isOk hb hf
          exact ⟨(s', sib), by simp [checkKeyPress, Except.map, hni, hjt, hc, hup]⟩
        · have hc' : (s.moveUpDownEnabled && ctrl) = false := by simpa using hc
          cases hprev : findPreviousOption s.items nextItem with
          | none => exact ⟨(s, sib), by simp [checkKeyPress, Except.map, hni, hjt, hc', hprev]⟩
          | some t =>
            obtain ⟨s', hfok⟩ := focusItem_isOk t.id hb
            exact ⟨(s', sib),
              by simp [checkKeyPress, Except.map, hni, hjt, hc', hprev, hfok]⟩
      · have hjt' : jsTruthy s.activeDescendant = false := by simpa using hjt
        obtain ⟨s', hfok⟩ := focusItem_isOk nextItem.id hb
        exact ⟨(s', sib), by simp [checkKeyPress, Except.map, hni, hjt', hfok]⟩
    | down =>
      by_cases hjt : jsTruthy s.activeDescendant = true
      · by_cases hc : (s.moveUpDownEnabled && ctrl) = true
        · obtain ⟨s', hdn⟩ := moveDownItems_isOk hb hf
          exact ⟨(s', sib), by simp [checkKeyPress, Except.map, hni, hjt, hc, hdn]⟩
        · have hc' : (s.moveUpDownEnabled && ctrl) = false := by simpa using hc
          cases hnext : findNextOption s.items nextItem with
          | none => exact ⟨(s, sib), by simp [checkKeyPress, Except.map, hni, hjt, hc', hnext]⟩
          | some t =>
            obtain ⟨s', hfok⟩ := focusItem_isOk t.id hb
            exact ⟨(s', sib),
              by simp [checkKeyPress, Except.map, hni, hjt, hc', hnext, hfok]⟩
      · have hjt' : jsTruthy s.activeDescendant = false := by simpa using hjt
        obtain ⟨s', hfok⟩ := focusItem_isOk nextItem.id hb
        exact ⟨(s', sib), by simp [checkKeyPress, Except.map, hni, hjt', hfok]⟩
    | home =>
      obtain ⟨s', hfok⟩ := focusFirstItem_isOk hb
      exact ⟨(s', sib), by simp [checkKeyPress, Except.map, hni, hfok]⟩
    | endKey =>
      obtain ⟨s', hfok⟩ := focusLastItem_isOk hb
      exact ⟨(s', sib), by simp [checkKeyPress, Except.map, hni, hfok]⟩
    | space =>
      exact ⟨(toggleSelectItem s nextItem.id, sib), by simp [checkKeyPress, Except.map, hni]⟩
    | backspace =>
      cases hmv : s.moveButton with
      | none => exact ⟨(s, sib), by simp [checkKeyPress, Except.map, hni, hmv]⟩
      | some b =>
        have hk := hks b hmv
        cases hkv : b.keyshortcuts with
        | none => rw [hkv] at hk; cases hk
        | some ks =>
          by_cases hcts : containsSub ks "Delete" = true
          · obtain ⟨s1, sib1, hmov, hb1⟩ := moveItems_isOk hb hf hsb
            by_cases hjt1 : jsTruthy s1.activeDescendant = true
            · exact ⟨(s1, sib1),
                by simp [checkKeyPress, Except.map, hni, hmv, hkv, hcts, hmov, hjt1]⟩
            · have hjt1' : jsTruthy s1.activeDescendant = false := by simpa using hjt1
              cases hnu : findNextUnselected s.items nextItem with
              | none => exact ⟨(s1, sib1),
                  by simp [checkKeyPress, Except.map, hni, hmv, hkv, hcts, hmov, hjt1', hnu]⟩
              | some nu =>
                obtain ⟨s2, hfok⟩ := focusItem_isOk nu.id hb1
                exact ⟨(s2, sib1),
                  by simp [checkKeyPress, Except.map, hni, hmv, hkv, hcts, hmov, hjt1', hnu, hfok]⟩
          · have hcts' : containsSub ks "Delete" = false := by simpa using hcts
            exact ⟨(s, sib), by simp [checkKeyPress, Except.map, hni, hmv, hkv, hcts']⟩
    | deleteKey =>
      cases hmv : s.moveButton with
      | none => exact ⟨(s, sib), by simp [checkKeyPress, Except.map, hni, hmv]⟩
      | some b =>
        have hk := hks b hmv
        cases hkv : b.keyshortcuts with
        | none => rw [hkv] at hk; cases hk
        | some ks =>
          by_cases hcts : containsSub ks "Delete" = true
          · obtain ⟨s1, sib1, hmov, hb1⟩ := moveItems_isOk hb hf hsb
            by_cases hjt1 : jsTruthy s1.activeDescendant = true
            · exact ⟨(s1, sib1),
                by simp [checkKeyPress, Except.map, hni, hmv, hkv, hcts, hmov, hjt1]⟩
            · have hjt1' : jsTruthy s1.activeDescendant = false := by simpa using hjt1
              cases hnu : findNextUnselected s.items nextItem with
              | none => exact ⟨(s1, sib1),
                  by simp [checkKeyPress, Except.map, hni, hmv, hkv, hcts, hmov, hjt1', hnu]⟩
              | some nu =>
                obtain ⟨s2, hfok⟩ := focusItem_isOk nu.id hb1
                exact ⟨(s2, sib1),
                  by simp [checkKeyPress, Except.map, hni, hmv, hkv, hcts, hmov, hjt1', hnu, hfok]⟩
          · have hcts' : containsSub ks "Delete" = false := by simpa using hcts
            exact ⟨(s, sib), by simp [checkKeyPress, Except.map, hni, hmv, hkv, hcts']⟩
    | returnKey =>
      cases hmv : s.moveButton with
      | none => exact ⟨(s, sib), by simp [checkKeyPress, Except.map, hni, hmv]⟩
      | some b =>
        have hk := hks b hmv
        cases hkv : b.keyshortcuts with
        | none => rw [hkv] at hk; cases hk
        | some ks =>
          by_cases hcts : containsSub ks "Enter" = true
          · obtain ⟨s1, sib1, hmov, hb1⟩ := moveItems_isOk hb hf hsb
            by_cases hjt1 : jsTruthy s1.activeDescendant = true
            · exact ⟨(s1, sib1),
                by simp [checkKeyPress, Except.map, hni, hmv, hkv, hcts, hmov, hjt1]⟩
            · have hjt1' : jsTruthy s1.activeDescendant = false := by simpa using hjt1
              cases hnu : findNextUnselected s.items nextItem with
              | none => exact ⟨(s1, sib1),
                  by simp [checkKeyPress, Except.map, hni, hmv, hkv, hcts, hmov, hjt1', hnu]⟩
              | some nu =>
                obtain ⟨s2, hfok⟩ := focusItem_isOk nu.id hb1
                exact ⟨(s2, sib1),
                  by simp [checkKeyPress, Except.map, hni, hmv, hkv, hcts, hmov, hjt1', hnu, hfok]⟩
          · have hcts' : containsSub ks "Enter" = false := by simpa using hcts
            exact ⟨(s, sib), by simp [checkKeyPress, Except.map, hni, hmv, hkv, hcts']⟩
    | char c =>
      cases hm : (findItemToFocus s c).2 with
      | none => exact ⟨((findItemToFocus s c).1, sib),
          by simp [checkKeyPress, Except.map, hni, hm]⟩
      | some it =>
        have hb1 : ButtonsWF (findItemToFocus s c).1 := fun he => hb he
        obtain ⟨s', hfok⟩ := focusItem_isOk it.id hb1
        exact ⟨(s', sib), by simp [checkKeyPress, Except.map, hni, hm, hfok]⟩

/-- C9 counterexample: a listbox whose move button is configured but carries
no aria-keyshortcuts attribute throws a TypeError from the keydown handler on
Return, Backspace and Delete (the handler reads the attribute and calls
indexOf on the resulting null), so the component does raise an error to its
caller on an input even though the listbox and its focus are perfectly
ordinary. -/
theorem no_throw_counterexample :
    noShortcutState.moveButton = some ⟨some "false", none⟩ ∧
    checkKeyPress noShortcutState none Key.returnKey false =
      .error JsErr.typeError ∧
    checkKeyPress noShortcutState none Key.backspace false =
      .error JsErr.typeError ∧
    checkKeyPress noShortcutState none Key.deleteKey false =
      .error JsErr.typeError :=
  ⟨rfl, rfl, rfl, rfl⟩

/-- C9 (amended): provided the reorder buttons are present whenever reorder is
enabled, the focus names a present option, the move button (when configured)
carries an aria-keyshortcuts attribute, and the sibling satisfies the same
button condition, every operation of the controller returns normally: every
keydown, every click, focus movement, add, create, delete, move and
focus-clearing all produce a result instead of throwing.  Without the
keyshortcuts proviso the claim is false (see the counterexample). -/
theorem no_throw_spec (s : State) (sib : Option State)
    (hb : ButtonsWF s) (hf : FocusWF s)
    (hks : ∀ b, s.moveButton = some b → b.keyshortcuts.isSome = true)
    (hsb : ∀ sb, sib = some sb → ButtonsWF sb) :
    (∀ key ctrl, ∃ r, checkKeyPress s sib key ctrl = .ok r) ∧
    (∀ t, ∃ s1, checkClickItem s t = .ok s1) ∧
    (∀ t, ∃ s1, focusItem s t = .ok s1) ∧
    (∃ s1, focusFirstItem s = .ok s1) ∧
    (∃ s1, focusLastItem s = .ok s1) ∧
    (∃ s1, moveUpItems s = .ok s1) ∧
    (∃ s1, moveDownItems s = .ok s1) ∧
    (∀ ni, ∃ s1, addItems s ni = .ok s1) ∧
    (∀ ls, ∃ s1, createListItems s ls = .ok s1) ∧
    (∃ s1 del, deleteItems s = .ok (s1, del)) ∧
    (∃ s1 sib1, moveItems s sib = .ok (s1, sib1)) ∧
    (∃ s1, clearActiveDescendant s = .ok s1) := by
  refine ⟨checkKeyPress_isOk s sib hb hf hks hsb,
    fun t => checkClickItem_isOk hb t,
    fun t => focusItem_isOk t hb,
    focusFirstItem_isOk hb, focusLastItem_isOk hb,
    moveUpItems_isOk hb hf, moveDownItems_isOk hb hf,
    fun ni => ?_, fun ls => createListItems_isOk hb ls, ?_, ?_,
    clearActiveDescendant_isOk hb⟩
  · obtain ⟨s1, h, _⟩ := addItems_isOk hb ni
    exact ⟨s1, h⟩
  · obtain ⟨s1, del, h, _⟩ := deleteItems_isOk hb hf
    exact ⟨s1, del, h⟩
  · obtain ⟨s1, sib1, h, _⟩ := moveItems_isOk hb hf hsb
    exact ⟨s1, sib1, h⟩

/-!  Preservation of the single-select invariant, claim-by-claim over the
reachable states. -/

theorem SingleSelectInv_perm {s s' : State} (hinv : SingleSelectInv s)
    (hit : s'.items.Perm s.items) (had : s'.activeDescendant = s.activeDescendant)
    (hms : s'.multiselectable = s.multiselectable) : SingleSelectInv s' := by
  obtain ⟨h1, h2, h3, h4, h5⟩ := hinv
  refine ⟨by rw [hms, h1], ?_, ?_, ?_, ?_⟩
  · exact ((hit.map (fun it => it.id)).nodup_iff).mpr h2
  · exact fun it hmem => h3 it (hit.mem_iff.mp hmem)
  · intro a ha
    rw [had] at ha
    obtain ⟨it, hmem, hid⟩ := h4 a ha
    exact ⟨it, hit.mem_iff.mpr hmem, hid⟩
  · intro it hmem
    rw [had]
    exact h5 it (hit.mem_iff.mp hmem)

theorem activeDescendant_none_of_falsy {s : State}
    (hne : ∀ it ∈ s.items, it.id ≠ "")
    (had : ∀ a, s.activeDescendant = some a → ∃ it ∈ s.items, it.id = a)
    (hjt : jsTruthy s.activeDescendant = false) : s.activeDescendant = none := by
  cases h : s.activeDescendant with
  | none => rfl
  | some a =>
    rw [h] at hjt
    have ha : a = "" := by simpa [jsTruthy] using hjt
    obtain ⟨it, hmem, hid⟩ := had a h
    exact absurd (hid.trans ha) (hne it hmem)

theorem updateFirst_unselect_all {l : List ListItem} {a : String}
    (hnd : (l.map (fun it => it.id)).Nodup)
    (hsel : ∀ it ∈ l, it.selected = some "true" → it.id = a) :
    ∀ it ∈ updateFirst l a unselectElem, it.selected ≠ some "true" := by
  induction l with
  | nil => simp [updateFirst]
  | cons x xs ih =>
    simp only [List.map_cons, List.nodup_cons] at hnd
    obtain ⟨hx, hnd⟩ := hnd
    by_cases hxa : x.id == a
    · simp only [updateFirst, hxa, if_pos]
      intro it hmem
      rcases List.mem_cons.mp hmem with rfl | hmem
      · simp [unselectElem]
      · intro hc
        have h1 : it.id = a := hsel it (List.mem_cons_of_mem x hmem) hc
        have h2 : x.id = a := by simpa using hxa
        exact hx (by rw [h2, ← h1]; exact List.mem_map_of_mem _ hmem)
    · simp only [updateFirst, hxa]
      intro it hmem
      rcases List.mem_cons.mp hmem with rfl | hmem
      · intro hc
        exact absurd (hsel it (List.mem_cons_self it xs) hc) (by simpa using hxa)
      · exact ih hnd (fun y hy => hsel y (List.mem_cons_of_mem x hy)) it hmem

theorem updateFirst_select_iff {l : List ListItem} {t : String}
    (hnd : (l.map (fun it => it.id)).Nodup)
    (hoff : ∀ it ∈ l, it.selected ≠ some "true") :
    ∀ it ∈ updateFirst l t selectElem, (it.selected = some "true" ↔ it.id = t) := by
  induction l with
  | nil => simp [updateFirst]
  | cons x xs ih =>
    simp only [List.map_cons, List.nodup_cons] at hnd
    obtain ⟨hx, hnd⟩ := hnd
    by_cases hxt : x.id == t
    · simp only [updateFirst, hxt, if_pos]
      intro it hmem
      rcases List.mem_cons.mp hmem with rfl | hmem
      · exact ⟨fun _ => by simpa using hxt, fun _ => rfl⟩
      · constructor
        · intro hc
          exact absurd hc (hoff it (List.mem_cons_of_mem x hmem))
        · intro hc
          have h2 : x.id = t := by simpa using hxt
          exact absurd (by rw [h2, ← hc]; exact List.mem_map_of_mem _ hmem) hx
    · simp only [updateFirst, hxt]
      intro it hmem
      rcases List.mem_cons.mp hmem with rfl | hmem
      · constructor
        · intro hc
          exact absurd hc (hoff it (List.mem_cons_self it xs))
        · intro hc
          exact absurd hc (by simpa using hxt)
      · exact ih hnd (fun y hy => hoff y (List.mem_cons_of_mem x hy)) it hmem

theorem mem_id_of_map {l : List ListItem} {it : ListItem}
    (hmem : it ∈ l) : it.id ∈ l.map (fun x => x.id) :=
  List.mem_map_of_mem _ hmem

theorem SingleSelectInv_of_focus_shape {s s' : State} {t : String}
    {l1 : List ListItem}
    (hms' : s'.multiselectable = false)
    (hitems : s'.items = updateFirst l1 t selectElem)
    (had' : s'.activeDescendant = some t)
    (hl1map : l1.map (fun it => it.id) = s.items.map (fun it => it.id))
    (hnd : (s.items.map (fun it => it.id)).Nodup)
    (hne : ∀ it ∈ s.items, it.id ≠ "")
    (hoff : ∀ it ∈ l1, it.selected ≠ some "true")
    (ht : ∃ it ∈ s.items, it.id = t) : SingleSelectInv s' := by
  have hl1nd : (l1.map (fun it => it.id)).Nodup := by rw [hl1map]; exact hnd
  have hiff := @updateFirst_select_iff l1 t hl1nd hoff
  have hmap : s'.items.map (fun it => it.id) = s.items.map (fun it => it.id) := by
    rw [hitems, updateFirst_map_id l1 t selectElem (fun x => rfl), hl1map]
  refine ⟨hms', by rw [hmap]; exact hnd, ?_, ?_, ?_⟩
  · intro it hmem
    have hmm : it.id ∈ s'.items.map (fun x => x.id) := mem_id_of_map hmem
    rw [hmap] at hmm
    obtain ⟨x, hx, hxe⟩ := List.mem_map.mp hmm
    rw [← hxe]
    exact hne x hx
  · intro a ha
    rw [had'] at ha
    have hat : a = t := (Option.some_inj.mp ha).symm
    obtain ⟨it0, hit0, hid0⟩ := ht
    have hmm : t ∈ s'.items.map (fun x => x.id) := by
      rw [hmap, ← hid0]
      exact mem_id_of_map hit0
    obtain ⟨x, hx, hxe⟩ := List.mem_map.mp hmm
    exact ⟨x, hx, by rw [hxe, hat]⟩
  · intro it hmem
    rw [hitems] at hmem
    rw [had']
    rw [hiff it hmem]
    constructor
    · intro hc
      rw [hc]
    · intro hc
      exact (Option.some_inj.mp hc).symm

theorem focusItem_preserves {s : State} {t : String} {s' : State}
    (hinv : SingleSelectInv s) (ht : ∃ it ∈ s.items, it.id = t)
    (h : focusItem s t = .ok s') : SingleSelectInv s' := by
  obtain ⟨hms, hnd, hne, had, hsel⟩ := hinv
  obtain ⟨ub, db, mb, hs, _, _, _⟩ := focusItem_ok_inv h
  cases hads : s.activeDescendant with
  | none =>
    have hfi : focusedItems s t = updateFirst s.items t selectElem := by
      unfold focusedItems
      rw [if_neg (by simp [hms]), hads]
    have hoff : ∀ it ∈ s.items, it.selected ≠ some "true" := by
      intro it hmem hc
      have hx := (hsel it hmem).mp hc
      rw [hads] at hx
      cases hx
    exact SingleSelectInv_of_focus_shape (s := s)
      (by rw [hs]; exact hms) (by rw [hs]; exact hfi) (by rw [hs])
      rfl hnd hne hoff ht
  | some a =>
    have hfi : focusedItems s t =
        updateFirst (updateFirst s.items a unselectElem) t selectElem := by
      unfold focusedItems
      rw [if_neg (by simp [hms]), hads]
    have hoff : ∀ it ∈ updateFirst s.items a unselectElem,
        it.selected ≠ some "true" := by
      refine updateFirst_unselect_all hnd ?_
      intro it hmem hc
      have hx := (hsel it hmem).mp hc
      rw [hads] at hx
      exact (Option.some_inj.mp hx).symm
    exact SingleSelectInv_of_focus_shape (s := s)
      (by rw [hs]; exact hms) (by rw [hs]; exact hfi) (by rw [hs])
      (updateFirst_map_id s.items a unselectElem (fun x => rfl)) hnd hne hoff ht

theorem deleteItems_preserves {s : State} {s' : State} {r : List ListItem}
    (hinv : SingleSelectInv s) (h : deleteItems s = .ok (s', r)) :
    SingleSelectInv s' := by
  obtain ⟨hms, hnd, hne, had, hsel⟩ := hinv
  unfold deleteItems at h
  rw [if_neg (by simp [hms])] at h
  by_cases hjt : jsTruthy s.activeDescendant = true
  · rw [if_pos hjt] at h
    obtain ⟨a, ha, hane⟩ := jsTruthy_eq_true hjt
    cases hget : getElementById s.items s.activeDescendant with
    | none =>
      simp only [hget] at h
      exact Except.noConfusion h
    | some foc =>
      simp only [hget] at h
      cases hdl : deleteLoop s [foc] with
      | error e =>
        simp only [hdl] at h
        exact Except.noConfusion h
      | ok s1 =>
        simp only [hdl] at h
        have hps : ({ s1 with events := ("removed", [foc]) :: s1.events }, [foc]) =
            (s', r) := Except.ok.inj h
        have hfoc : foc ∈ s.items ∧ foc.id = a := by
          rw [ha] at hget
          exact findById_eq_some hget
        obtain ⟨ub1, db1, mb1, hs1, _, _, _⟩ := deleteLoop_ok_inv hdl
        have hany : ([foc].any (fun d => s.activeDescendant == some d.id)) = true := by
          simp [ha, hfoc.2]
        have hs'eq : s' = { s1 with events := ("removed", [foc]) :: s1.events } :=
          (congrArg Prod.fst hps).symm
        rw [hs'eq, hs1]
        have hsub : (removeSeq s.items [foc]).Sublist s.items := by
          simp only [removeSeq]
          exact removeFirstById_sublist s.items foc.id
        refine ⟨hms, ?_, ?_, ?_, ?_⟩
        · exact List.Nodup.sublist (hsub.map (fun it => it.id)) hnd
        · exact fun it hmem => hne it (hsub.mem hmem)
        · intro b hb
          rw [hany] at hb
          cases hb
        · intro it hmem
          rw [hany]
          simp only [removeSeq] at hmem
          have hidne : it.id ≠ foc.id :=
            mem_removeFirstById_id_ne hnd hmem ⟨foc, hfoc.1, rfl⟩
          constructor
          · intro hc
            have := (hsel it (hsub.mem hmem)).mp hc
            rw [ha] at this
            exact absurd ((Option.some_inj.mp this).symm.trans hfoc.2.symm) hidne
          · intro hc
            cases hc
  · rw [if_neg hjt] at h
    have hps : (s, ([] : List ListItem)) = (s', r) :=
      Except.ok.inj h
    have hs'eq : s' = s := (congrArg Prod.fst hps).symm
    rw [hs'eq]
    exact ⟨hms, hnd, hne, had, hsel⟩

theorem addItems_preserves {s : State} {ni : List ListItem} {s' : State}
    (hinv : SingleSelectInv s) (hfr : FreshIds s.items ni)
    (h : addItems s ni = .ok s') : SingleSelectInv s' := by
  obtain ⟨hms, hnd, hne, had, hsel⟩ := hinv
  obtain ⟨hfnd, hfne⟩ := hfr
  by_cases hni : ni.isEmpty = true
  · unfold addItems at h
    rw [if_pos hni] at h
    have hs'eq : s = s' := Except.ok.inj h
    rw [← hs'eq]
    exact ⟨hms, hnd, hne, had, hsel⟩
  · have hni' : ni.isEmpty = false := by simpa using hni
    obtain ⟨mb1, hs1, hmb1⟩ := appendLoop_eq ni s
    have happnd : ((s.items ++ ni.map (transformAdded s.multiselectable)).map
        (fun it => it.id)).Nodup := by
      have : (s.items ++ ni.map (transformAdded s.multiselectable)).map
          (fun it => it.id) = (s.items ++ ni).map (fun it => it.id) := by
        simp [transformAdded_id]
      rw [this]
      exact hfnd
    have happne : ∀ it ∈ s.items ++ ni.map (transformAdded s.multiselectable),
        it.id ≠ "" := by
      intro it hmem
      rcases List.mem_append.mp hmem with hmem | hmem
      · exact hne it hmem
      · obtain ⟨x, hx, hxe⟩ := List.mem_map.mp hmem
        rw [← hxe, transformAdded_id]
        exact hfne x hx
    by_cases hjt : jsTruthy s.activeDescendant = true
    · obtain ⟨a, ha, hane⟩ := jsTruthy_eq_true hjt
      have hrun : addItems s ni =
          .ok { appendLoop s ni with events :=
            ("added", ni.map (transformAdded s.multiselectable)) ::
              (appendLoop s ni).events } := by
        simp [addItems, hni', hs1, hjt]
      rw [hrun] at h
      have hs'eq := Except.ok.inj h
      rw [← hs'eq, hs1]
      refine ⟨hms, happnd, happne, ?_, ?_⟩
      · intro b hb
        obtain ⟨it, hmem, hid⟩ := had b hb
        exact ⟨it, List.mem_append_left _ hmem, hid⟩
      · intro it hmem
        rcases List.mem_append.mp hmem with hmem | hmem
        · exact hsel it hmem
        · obtain ⟨x, hx, hxe⟩ := List.mem_map.mp hmem
          constructor
          · intro hc
            rw [← hxe] at hc
            simp [transformAdded, hms] at hc
          · intro hc
            exfalso
            rw [ha] at hc
            have hxa : it.id = a := (Option.some_inj.mp hc).symm
            obtain ⟨it0, hit0, hid0⟩ := had a ha
            rw [List.map_append, List.nodup_append] at hfnd
            have hm1 : a ∈ s.items.map (fun it => it.id) := by
              rw [← hid0]
              exact mem_id_of_map hit0
            have hm2 : a ∈ ni.map (fun it => it.id) := by
              rw [← hxa, ← hxe, transformAdded_id]
              exact mem_id_of_map hx
            exact hfnd.2.2 hm1 hm2
    · have hjt' : jsTruthy s.activeDescendant = false := by simpa using hjt
      have hadn : s.activeDescendant = none :=
        activeDescendant_none_of_falsy hne had hjt'
      cases hnicase : ni with
      | nil => rw [hnicase] at hni'; cases hni'
      | cons it0 rest =>
        subst hnicase
        have hunf : addItems s (it0 :: rest) =
            (match (if jsTruthy (appendLoop s (it0 :: rest)).activeDescendant
                    then Except.ok (appendLoop s (it0 :: rest))
                    else focusItem (appendLoop s (it0 :: rest)) it0.id) with
             | .error e => .error e
             | .ok s2 => .ok { s2 with events :=
                 ("added",
                   (it0 :: rest).map (transformAdded s.multiselectable)) ::
                   s2.events }) := rfl
        have hadA : jsTruthy (appendLoop s (it0 :: rest)).activeDescendant =
            false := by
          rw [hs1]
          exact hjt'
        rw [hunf, if_neg (by simp [hadA])] at h
        cases hfi : focusItem (appendLoop s (it0 :: rest)) it0.id with
        | error e =>
          simp only [hfi] at h
          exact Except.noConfusion h
        | ok s2 =>
          simp only [hfi] at h
          have hs'eq := Except.ok.inj h
          obtain ⟨ub, db, mb2, hs2, _, _, _⟩ := focusItem_ok_inv hfi
          have hinv1 : SingleSelectInv s2 := by
            refine focusItem_preserves (s := appendLoop s (it0 :: rest))
              ⟨by rw [hs1]; exact hms, by rw [hs1]; exact happnd,
               by rw [hs1]; exact happne,
               ?_, ?_⟩ ?_ hfi
            · intro b hb
              rw [hs1] at hb
              simp only [hadn] at hb
              cases hb
            · intro it hmem
              rw [hs1] at hmem ⊢
              simp only [hadn]
              constructor
              · intro hc
                exfalso
                rcases List.mem_append.mp hmem with hmem | hmem
                · have := (hsel it hmem).mp hc
                  rw [hadn] at this
                  cases this
                · obtain ⟨x, hx, hxe⟩ := List.mem_map.mp hmem
                  rw [← hxe] at hc
                  simp [transformAdded, hms] at hc
              · intro hc
                cases hc
            · rw [hs1]
              refine ⟨transformAdded s.multiselectable it0, ?_,
                transformAdded_id _ _⟩
              exact List.mem_append_right _ (List.mem_cons_self _ _)
          rw [← hs'eq]
          obtain ⟨i1, i2, i3, i4, i5⟩ := hinv1
          exact ⟨i1, i2, i3, i4, i5⟩

theorem createListItems_preserves {s : State} {ls : List String} {s' : State}
    (hinv : SingleSelectInv s) (hfr : FreshIds s.items (mkListItems ls 0))
    (h : createListItems s ls = .ok s') : SingleSelectInv s' := by
  unfold createListItems at h
  by_cases hls : ls.isEmpty = true
  · rw [if_pos hls] at h
    have hs'eq : s = s' := Except.ok.inj h
    rw [← hs'eq]
    exact hinv
  · rw [if_neg hls] at h
    exact addItems_preserves hinv hfr h

theorem moveUpItems_preserves {s s' : State} (hinv : SingleSelectInv s)
    (h : moveUpItems s = .ok s') : SingleSelectInv s' := by
  obtain ⟨hms, hnd, hne, had, hsel⟩ := hinv
  by_cases hjt : jsTruthy s.activeDescendant = true
  · obtain ⟨a, ha, hane⟩ := jsTruthy_eq_true hjt
    cases hget : findById s.items a with
    | none =>
      exfalso
      obtain ⟨it0, hit0, hid0⟩ := had a ha
      have := findById_isSome_of_mem ⟨it0, hit0, hid0⟩
      rw [hget] at this
      cases this
    | some cur =>
      obtain ⟨i, hidx⟩ := idxOfId_of_findById hget
      by_cases hp : 0 < i
      · rw [moveUpItems_run_swap ha hane hget hidx hp] at h
        obtain ⟨ub, db, hs, _, _⟩ := checkUpDownButtons_ok_shape h
        refine SingleSelectInv_perm ⟨hms, hnd, hne, had, hsel⟩ ?_ ?_ ?_
        · rw [hs]
          exact swapPrevById_perm s.items cur.id
        · rw [hs]
        · rw [hs]
      · have hi0 : i = 0 := by omega
        rw [moveUpItems_run_noop ha hane hget (hi0 ▸ hidx)] at h
        obtain ⟨ub, db, hs, _, _⟩ := checkUpDownButtons_ok_shape h
        refine SingleSelectInv_perm ⟨hms, hnd, hne, had, hsel⟩ ?_ ?_ ?_ <;>
          rw [hs]
  · have hjt' : jsTruthy s.activeDescendant = false := by simpa using hjt
    have hrun : moveUpItems s = .ok s := by
      unfold moveUpItems
      rw [hjt']
      rfl
    rw [hrun] at h
    have hs'eq : s = s' := Except.ok.inj h
    rw [← hs'eq]
    exact ⟨hms, hnd, hne, had, hsel⟩

theorem moveDownItems_preserves {s s' : State} (hinv : SingleSelectInv s)
    (h : moveDownItems s = .ok s') : SingleSelectInv s' := by
  obtain ⟨hms, hnd, hne, had, hsel⟩ := hinv
  by_cases hjt : jsTruthy s.activeDescendant = true
  · obtain ⟨a, ha, hane⟩ := jsTruthy_eq_true hjt
    cases hget : findById s.items a with
    | none =>
      exfalso
      obtain ⟨it0, hit0, hid0⟩ := had a ha
      have := findById_isSome_of_mem ⟨it0, hit0, hid0⟩
      rw [hget] at this
      cases this
    | some cur =>
      obtain ⟨i, hidx⟩ := idxOfId_of_findById hget
      by_cases hp : i + 1 < s.items.length
      · rw [moveDownItems_run_swap ha hane hget hidx hp] at h
        obtain ⟨ub, db, hs, _, _⟩ := checkUpDownButtons_ok_shape h
        refine SingleSelectInv_perm ⟨hms, hnd, hne, had, hsel⟩ ?_ ?_ ?_
        · rw [hs]
          exact swapNextById_perm s.items cur.id
        · rw [hs]
        · rw [hs]
      · rw [moveDownItems_run_noop ha hane hget hidx hp] at h
        obtain ⟨ub, db, hs, _, _⟩ := checkUpDownButtons_ok_shape h
        refine SingleSelectInv_perm ⟨hms, hnd, hne, had, hsel⟩ ?_ ?_ ?_ <;>
          rw [hs]
  · have hjt' : jsTruthy s.activeDescendant = false := by simpa using hjt
    have hrun : moveDownItems s = .ok s := by
      unfold moveDownItems
      rw [hjt']
      rfl
    rw [hrun] at h
    have hs'eq : s = s' := Except.ok.inj h
    rw [← hs'eq]
    exact ⟨hms, hnd, hne, had, hsel⟩

theorem moveItems_preserves {s : State} {sib : Option State} {s' : State}
    {sib' : Option State} (hinv : SingleSelectInv s)
    (h : moveItems s sib = .ok (s', sib')) : SingleSelectInv s' := by
  cases sib with
  | none =>
    have hps : (s, (none : Option State)) = (s', sib') := Except.ok.inj h
    have hs'eq : s' = s := (congrArg Prod.fst hps).symm
    rw [hs'eq]
    exact hinv
  | some sibL =>
    unfold moveItems at h
    cases hdel : deleteItems s with
    | error e =>
      simp only [hdel] at h
      exact Except.noConfusion h
    | ok p =>
      simp only [hdel] at h
      cases hp : p with
      | mk s1 moved =>
        rw [hp] at h
        cases hadd : addItems sibL moved with
        | error e =>
          simp only [hadd] at h
          exact Except.noConfusion h
        | ok sib1 =>
          simp only [hadd] at h
          have hps : (s1, some sib1) = (s', sib') := Except.ok.inj h
          have hs'eq : s' = s1 := (congrArg Prod.fst hps).symm
          rw [hs'eq]
          exact deleteItems_preserves hinv (by rw [hdel, hp])

theorem toggleSelectItem_ss {s : State} (hms : s.multiselectable = false)
    (t : String) : toggleSelectItem s t = s := by
  unfold toggleSelectItem
  rw [if_neg (by simp [hms])]

theorem reachable_inv {s : State} (h : ReachableSS s) : SingleSelectInv s := by
  induction h with
  | init =>
    refine ⟨rfl, by simp [initState], by simp [initState], ?_, by simp [initState]⟩
    intro a ha
    simp [initState] at ha
  | enable s ub db _ ih =>
    exact SingleSelectInv_perm ih (List.Perm.refl _) rfl rfl
  | setup s b _ ih =>
    exact SingleSelectInv_perm ih (List.Perm.refl _) rfl rfl
  | focus s t s' _ ht hrun ih => exact focusItem_preserves ih ht hrun
  | add s ni s' _ hfr hrun ih => exact addItems_preserves ih hfr hrun
  | create s ls s' _ hfr hrun ih => exact createListItems_preserves ih hfr hrun
  | toggle s t _ ih =>
    rw [toggleSelectItem_ss ih.1 t]
    exact ih
  | del s s' r _ hrun ih => exact deleteItems_preserves ih hrun
  | moveUp s s' _ hrun ih => exact moveUpItems_preserves ih hrun
  | moveDown s s' _ hrun ih => exact moveDownItems_preserves ih hrun
  | move s sib s' sib' _ hrun ih => exact moveItems_preserves ih hrun
  | keysTimer s _ ih =>
    exact SingleSelectInv_perm ih (List.Perm.refl _) rfl rfl

theorem filter_selected_length_le_one {l : List ListItem} {a : String}
    (hnd : (l.map (fun it => it.id)).Nodup)
    (hp : ∀ it ∈ l, (it.selected == some "true") = true → it.id = a) :
    (l.filter (fun it => it.selected == some "true")).length ≤ 1 := by
  induction l with
  | nil => simp
  | cons x xs ih =>
    simp only [List.map_cons, List.nodup_cons] at hnd
    obtain ⟨hx, hnd⟩ := hnd
    by_cases hpx : (x.selected == some "true") = true
    · have hfc : (x :: xs).filter (fun it => it.selected == some "true") =
          x :: xs.filter (fun it => it.selected == some "true") := by
        simp [List.filter_cons, hpx]
      rw [hfc]
      have hxs : xs.filter (fun it => it.selected == some "true") = [] := by
        rw [List.filter_eq_nil_iff]
        intro it hmem hitp
        have h1 := hp it (List.mem_cons_of_mem x hmem) hitp
        have h2 := hp x (List.mem_cons_self x xs) hpx
        exact hx (by rw [h2, ← h1]; exact List.mem_map_of_mem _ hmem)
      rw [hxs]
      simp
    · have hpx' : (x.selected == some "true") = false := by simpa using hpx
      have hfc : (x :: xs).filter (fun it => it.selected == some "true") =
          xs.filter (fun it => it.selected == some "true") := by
        simp [List.filter_cons, hpx']
      rw [hfc]
      exact ih hnd (fun it hmem => hp it (List.mem_cons_of_mem x hmem))

/-- C1: in a single-select listbox every state reachable from construction
through the public operations has at most one option with aria-selected
"true", and whenever a focus is set the selected option is exactly the
focused one; the invariant is thus preserved by focusItem, addItems,
createListItems, deleteItems, toggleSelectItem and the move operations,
which generate the reachable states. -/
theorem single_select_invariant (s : State) (h : ReachableSS s) :
    (s.items.filter (fun it => it.selected == some "true")).length ≤ 1 ∧
    (∀ a, s.activeDescendant = some a →
      ∀ it ∈ s.items, (it.selected = some "true" ↔ it.id = a)) := by
  obtain ⟨hms, hnd, hne, had, hsel⟩ := reachable_inv h
  constructor
  · cases hads : s.activeDescendant with
    | none =>
      have hnil : s.items.filter (fun it => it.selected == some "true") = [] := by
        rw [List.filter_eq_nil_iff]
        intro it hmem hc
        have hx := (hsel it hmem).mp (by simpa using hc)
        rw [hads] at hx
        cases hx
      rw [hnil]
      simp
    | some a =>
      refine @filter_selected_length_le_one s.items a hnd ?_
      intro it hmem hc
      have hx := (hsel it hmem).mp (by simpa using hc)
      rw [hads] at hx
      exact (Option.some_inj.mp hx).symm
  · intro a ha it hmem
    constructor
    · intro hc
      have hx := (hsel it hmem).mp hc
      rw [ha] at hx
      exact (Option.some_inj.mp hx).symm
    · intro hc
      exact (hsel it hmem).mpr (by rw [ha, hc])

/-- C1 witness: the invariant evaluated on the concrete reachable state
obtained by creating the two options One and Two on a freshly constructed
single-select listbox. -/
theorem single_select_invariant_witness :
    (wState.items.filter (fun it => it.selected == some "true")).length ≤ 1 ∧
    (∀ a, wState.activeDescendant = some a →
      ∀ it ∈ wState.items, (it.selected = some "true" ↔ it.id = a)) :=
  single_select_invariant wState
    (ReachableSS.create (initState false) ["One", "Two"] wState
      ReachableSS.init ⟨by decide, by decide⟩ rfl)

/-- C9 witness: the amended no-throw theorem applied to the concrete
multi-select source listbox whose move button does carry aria-keyshortcuts. -/
theorem no_throw_spec_witness :
    (∀ key ctrl, ∃ r, checkKeyPress mvSrc none key ctrl = .ok r) ∧
    (∀ t, ∃ s1, checkClickItem mvSrc t = .ok s1) ∧
    (∀ t, ∃ s1, focusItem mvSrc t = .ok s1) ∧
    (∃ s1, focusFirstItem mvSrc = .ok s1) ∧
    (∃ s1, focusLastItem mvSrc = .ok s1) ∧
    (∃ s1, moveUpItems mvSrc = .ok s1) ∧
    (∃ s1, moveDownItems mvSrc = .ok s1) ∧
    (∀ ni, ∃ s1, addItems mvSrc ni = .ok s1) ∧
    (∀ ls, ∃ s1, createListItems mvSrc ls = .ok s1) ∧
    (∃ s1 del, deleteItems mvSrc = .ok (s1, del)) ∧
    (∃ s1 sib1, moveItems mvSrc none = .ok (s1, sib1)) ∧
    (∃ s1, clearActiveDescendant mvSrc = .ok s1) :=
  no_throw_spec mvSrc none
    (fun h => absurd h (by decide))
    (fun h => absurd h (by decide))
    (fun b hbb => by
      have h2 : some (⟨some "false", some "Delete"⟩ : Button) = some b := hbb
      injection h2 with h3
      rw [← h3]
      rfl)
    (fun sb h => nomatch h)

end Listbox
